import Mathlib

/-!
Verification of the HDF-Viewer backend (Flask + h5py + S3) against its
natural-language specification.  The definitions below are shallow
embeddings of the Python source:

* src/backend/src/routes/hdf5.py   (selection normalizer, read planner,
                                    /children /meta /preview /data routes)
* src/backend/src/readers/hdf5_reader.py (HDF5Reader)
* src/backend/src/utils/cache.py   (SimpleCache)
* src/backend/src/storage/minio_client.py (MinIOClient.list_objects)
* src/backend/src/routes/files.py  (list_files)

Machine integers are modelled as Nat/Int (Python ints are unbounded),
fallible code as Except, dictionaries as association lists or functions
into Option.
-/

namespace HDFViewer

/-! ## Constants (src/routes/hdf5.py lines 21-32) -/

def MAX_ELEMENTS : Nat := 1000000

def MAX_JSON_ELEMENTS : Nat := 500000

def MAX_MATRIX_ROWS : Nat := 2000

def MAX_MATRIX_COLS : Nat := 2000

def MAX_LINE_POINTS : Nat := 5000

def MAX_LINE_EXACT_POINTS : Nat := 20000

def MAX_HEATMAP_SIZE : Nat := 1024

def DEFAULT_ROW_LIMIT : Nat := 100

def DEFAULT_COL_LIMIT : Nat := 100

def DEFAULT_MAX_SIZE : Nat := 512

instance {ε α : Type} [DecidableEq ε] [DecidableEq α] : DecidableEq (Except ε α) :=
  fun x y =>
  match x, y with
  | .ok a, .ok b =>
    if h : a = b then .isTrue (h ▸ rfl) else .isFalse (fun hc => h (Except.ok.inj hc))
  | .error a, .error b =>
    if h : a = b then .isTrue (h ▸ rfl) else .isFalse (fun hc => h (Except.error.inj hc))
  | .ok _, .error _ => .isFalse (fun hc => Except.noConfusion hc)
  | .error _, .ok _ => .isFalse (fun hc => Except.noConfusion hc)

/-- Ceiling division on naturals: `int(math.ceil(a / b))` for `a ≥ 0`, `b ≥ 1`. -/
def cdiv (a b : Nat) : Nat := (a + b - 1) / b

/-! ## C4: heatmap size planner (`_compute_safe_heatmap_size`, routes/hdf5.py 184-208) -/

/-- Models `projected_cells(size)` from `_compute_safe_heatmap_size`. -/
def projected_cells (rows cols size : Nat) : Nat :=
  min rows size * min cols size

/-- Models `cap = min(MAX_JSON_ELEMENTS, MAX_ELEMENTS)` (line 188). -/
def heatmapCap : Nat := min MAX_JSON_ELEMENTS MAX_ELEMENTS

/-- The `while low <= high` binary-search loop of `_compute_safe_heatmap_size`
(lines 200-206), with explicit fuel (the loop halves the interval, so any
fuel ≥ `high + 1 - low` runs it to completion). -/
def safeHeatmapLoop (rows cols : Nat) : Nat → Nat → Nat → Nat → Nat
  | 0, _, _, best => best
  | fuel + 1, low, high, best =>
    if low ≤ high then
      let mid := (low + high) / 2
      if projected_cells rows cols mid ≤ heatmapCap then
        safeHeatmapLoop rows cols fuel (mid + 1) high mid
      else
        safeHeatmapLoop rows cols fuel low (mid - 1) best
    else best

/-- Models `_compute_safe_heatmap_size(rows, cols, requested_size)` (lines 184-208).
The route only calls it with `requested_size ≥ 1`; the `requested = 0` case
mirrors the `requested_size <= 0` guard (line 185). -/
def compute_safe_heatmap_size (rows cols requested : Nat) : Nat :=
  if requested = 0 then 1
  else if projected_cells rows cols requested ≤ heatmapCap then requested
  else safeHeatmapLoop rows cols (requested + 1) 1 requested 1

/-- Models `_enforce_element_limits(count)` (routes/hdf5.py 211-219). -/
def enforce_element_limits (count : Nat) : Except String Unit :=
  if count > MAX_JSON_ELEMENTS then
    .error ("Selection too large for JSON (" ++ toString count ++ " > " ++
      toString MAX_JSON_ELEMENTS ++ " elements)")
  else if count > MAX_ELEMENTS then
    .error ("Selection exceeds max_elements (" ++ toString count ++ " > " ++
      toString MAX_ELEMENTS ++ " elements)")
  else .ok ()

/-- The `max_size`-related fields of the heatmap response payload
(routes/hdf5.py 634-636). -/
structure HeatmapSizeEcho where
  requested_max_size : Nat
  effective_max_size : Nat
  max_size_clamped : Bool
deriving DecidableEq, Repr

/-- The size computations of the heatmap branch of `get_data`
(routes/hdf5.py 594-606 and 634-636): guard on `MAX_HEATMAP_SIZE`,
effective size, target dims, element-limit check, and the echoed fields. -/
def heatmapBranchSizes (rows cols requested : Nat) : Except String HeatmapSizeEcho :=
  if requested > MAX_HEATMAP_SIZE then
    .error ("max_size exceeds " ++ toString MAX_HEATMAP_SIZE)
  else
    let eff := compute_safe_heatmap_size rows cols requested
    let target_rows := min rows eff
    let target_cols := min cols eff
    match enforce_element_limits (target_rows * target_cols) with
    | .error e => .error e
    | .ok _ =>
      .ok { requested_max_size := requested,
            effective_max_size := eff,
            max_size_clamped := eff != requested }

/-! ## C5/C6: line branch of `get_data` (routes/hdf5.py 641-749) -/

/-- Line quality (`_parse_line_quality`, routes/hdf5.py 124-130). -/
inductive Quality
  | auto
  | overview
  | exact
deriving DecidableEq, Repr

/-- Parsed `line_dim` (`_parse_line_dim`, routes/hdf5.py 107-121): either an
axis number (negatives already resolved, in `[0, ndim)`) or `row`/`col`. -/
inductive LineDimParam
  | dim (d : Nat)
  | row
  | col
deriving DecidableEq, Repr

/-- Result of the line-length / axis / index computation. -/
structure LineGeom where
  lineLength : Nat
  axis : String
  index : Option Nat
deriving DecidableEq, Repr

/-- Lines 661-685 of routes/hdf5.py: determine the varying length, the axis
label and (for row/col lines) the validated `line_index`.  `lineIndex` is the
`line_index` query parameter (parsed with `min_value = 0`, hence a Nat).
The fixed-index filling of lines 653-659 only affects the scalar axes passed
to the reader, not the quantities claimed here, and is modelled with the
selection normalizer. -/
def lineGeometry (shape : List Nat) (displayDims : Option (Nat × Nat))
    (lineDim : Option LineDimParam) (lineIndex : Option Nat) :
    Except String LineGeom :=
  let ndim := shape.length
  if ndim = 1 then .ok ⟨shape.getD 0 0, "dim", none⟩
  else
    match lineDim with
    | some (.dim d) => .ok ⟨shape.getD d 0, "dim", none⟩
    | ld =>
      let dd := displayDims.getD (ndim - 2, ndim - 1)
      let rows := shape.getD dd.1 0
      let cols := shape.getD dd.2 0
      if ld = some .col then
        let idx := lineIndex.getD (cols / 2)
        if cols ≤ idx then .error "line_index out of range"
        else .ok ⟨rows, "col", some idx⟩
      else
        let idx := lineIndex.getD (rows / 2)
        if rows ≤ idx then .error "line_index out of range"
        else .ok ⟨cols, "row", some idx⟩

/-- Lines 687-690: the clamped requested window
(`line_limit = min(line_limit, max(0, line_length - line_offset))`,
or `max(0, line_length - line_offset)` when no `line_limit` was given). -/
def lineWindow (lineLength lineOffset : Nat) (lineLimitParam : Option Nat) : Nat :=
  match lineLimitParam with
  | none => lineLength - lineOffset
  | some l => min l (lineLength - lineOffset)

/-- The message of the `quality=exact` over-cap rejection (lines 695-698). -/
def exactWindowMsg : String :=
  "Exact line window exceeds " ++ toString MAX_LINE_EXACT_POINTS ++
  " points. Reduce line_limit/zoom window or use quality=overview."

/-- Lines 693-703: which quality is applied, or the over-cap rejection. -/
def qualityDecision (quality : Quality) (requested : Nat) : Except String Quality :=
  match quality with
  | .exact =>
    if requested > MAX_LINE_EXACT_POINTS then .error exactWindowMsg
    else .ok .exact
  | .overview => .ok .overview
  | .auto =>
    .ok (if requested ≤ MAX_LINE_EXACT_POINTS then Quality.exact else Quality.overview)

/-- The plan a successful line selection hands to `reader.get_line`,
together with the echoed payload fields (lines 705-749). -/
structure LinePlan where
  axis : String
  index : Option Nat
  lineOffset : Nat
  lineLimit : Nat
  lineStep : Nat
  qualityApplied : Quality
  requestedPoints : Nat
  outputPoints : Nat
deriving DecidableEq, Repr

/-- The line branch of `get_data` (routes/hdf5.py 641-711) up to the reader
call: geometry, window clamping, `max_points` clamp (lines 649-651), quality
decision, `line_step` and output-point computation, and the element-limit
check.  `reader.get_line` is invoked exactly when the result is `.ok`. -/
def planLine (shape : List Nat) (displayDims : Option (Nat × Nat))
    (lineDim : Option LineDimParam) (quality : Quality)
    (lineIndex : Option Nat) (lineOffset : Nat)
    (lineLimitParam : Option Nat) (maxPointsParam : Option Nat) :
    Except String LinePlan :=
  match lineGeometry shape displayDims lineDim lineIndex with
  | .error e => .error e
  | .ok geom =>
    let maxPoints := min (maxPointsParam.getD MAX_LINE_POINTS) MAX_LINE_POINTS
    let requested := lineWindow geom.lineLength lineOffset lineLimitParam
    match qualityDecision quality requested with
    | .error e => .error e
    | .ok qa =>
      let lineStep :=
        if qa = Quality.overview ∧ 0 < requested then max 1 (cdiv requested maxPoints)
        else 1
      let outputPoints := if 0 < requested then cdiv requested lineStep else 0
      match enforce_element_limits outputPoints with
      | .error e => .error e
      | .ok _ =>
        .ok { axis := geom.axis, index := geom.index, lineOffset := lineOffset,
              lineLimit := requested, lineStep := lineStep, qualityApplied := qa,
              requestedPoints := requested, outputPoints := outputPoints }

/-- Number of `reader.get_line` array reads performed by the line branch:
the read at lines 713-723 runs only when no exception was raised before it. -/
def lineReadCount (r : Except String LinePlan) : Nat :=
  match r with
  | .ok _ => 1
  | .error _ => 0

/-! ## Exception model and route status mapping -/

/-- The Python exception kinds distinguished by the route handlers. -/
inductive PyErr
  | valueError (msg : String)
  | typeError (msg : String)
  | other (msg : String)
deriving DecidableEq, Repr

def pyErrMsg : PyErr → String
  | .valueError m => m
  | .typeError m => m
  | .other m => m

/-- Models `str.lower()` on the ASCII messages used here. -/
def strLower (s : String) : String := String.mk (s.toList.map Char.toLower)

def isPre : List Char → List Char → Bool
  | [], _ => true
  | _ :: _, [] => false
  | a :: as, b :: bs => a = b && isPre as bs

def hasSeg (needle : List Char) : List Char → Bool
  | [] => isPre needle []
  | c :: rest => isPre needle (c :: rest) || hasSeg needle rest

/-- Python substring test `needle in hay`. -/
def strContainsStr (hay needle : String) : Bool := hasSeg needle.toList hay.toList

/-- Models `_is_not_found_error(error)` (routes/hdf5.py 155-157). -/
def is_not_found_error (e : PyErr) : Bool :=
  strContainsStr (strLower (pyErrMsg e)) "not found"

/-- Status produced by the except-blocks of `/preview` (routes/hdf5.py
455-473) and `/data` (765-781): `ValueError` → 404 when the message reads
as not-found, else 400; `TypeError` → 400; anything else → 500. -/
def previewDataErrStatus (e : PyErr) : Nat :=
  match e with
  | .valueError m => if is_not_found_error (.valueError m) then 404 else 400
  | .typeError _ => 400
  | .other _ => 500

/-- Status of `/children` (routes/hdf5.py 262-310): the single
`except Exception` turns every error into 500. -/
def childrenRouteStatus (outcome : Except PyErr (List Unit)) : Nat :=
  match outcome with
  | .ok _ => 200
  | .error _ => 500

/-- Status of `/meta` (routes/hdf5.py 313-365): likewise, every error → 500. -/
def metaRouteStatus (outcome : Except PyErr (List Unit)) : Nat :=
  match outcome with
  | .ok _ => 200
  | .error _ => 500

/-- The reader's not-found message, e.g.
`Path '/missing' not found in 'sample.h5'` (hdf5_reader.py 57 and friends). -/
def notFoundMsg (path key : String) : String :=
  "Path '" ++ path ++ "' not found in '" ++ key ++ "'"

/-- Models `HDF5Reader.get_children` on an absent internal path logs a warning and
returns an empty list instead of raising (hdf5_reader.py 452-457). -/
def get_children_absent_path : Except PyErr (List Unit) := .ok []

/-! ## C1/C2: route-to-reader call compatibility -/

/-- Parameter names of `HDF5Reader.get_preview` (hdf5_reader.py 98-106);
the def has no `**kwargs`. -/
def get_preview_params : List String :=
  ["key", "path", "display_dims", "fixed_indices", "mode", "max_size"]

/-- Keyword arguments of the `/preview` route's `reader.get_preview(...)`
call (routes/hdf5.py 435-444). -/
def preview_call_kwargs : List String :=
  ["display_dims_param", "fixed_indices_param", "mode", "max_size",
   "include_stats", "detail"]

/-- Python call binding: a keyword argument outside the callee's parameter
list raises `TypeError` (unexpected keyword argument). -/
def kwargsAccepted (params kwargs : List String) : Bool :=
  kwargs.all (fun k => params.contains k)

/-- Cache-miss path of the `/preview` route: the reader call succeeds only
if its keywords bind; a `TypeError` is caught at routes/hdf5.py 462-467 and
mapped to 400. -/
def previewRouteMissStatus : Nat :=
  if kwargsAccepted get_preview_params preview_call_kwargs then 200 else 400

/-- Keys of the payload dict `HDF5Reader.get_preview` returns
(hdf5_reader.py 156-177). -/
def get_preview_payload_keys : List String :=
  ["key", "path", "dtype", "shape", "ndim", "preview_type", "mode",
   "display_dims", "fixed_indices", "stats", "table", "plot", "profile",
   "limits"]

/-- The fields the spec promises in every preview payload. -/
def claimed_preview_fields : List String :=
  ["key", "path", "dtype", "shape", "ndim", "preview_type", "mode",
   "display_dims", "fixed_indices", "stats", "table", "plot", "profile",
   "limits"]

/-- Parameter names of `HDF5Reader.get_heatmap` (hdf5_reader.py 350-357);
no `**kwargs`, and no `include_stats` parameter. -/
def get_heatmap_params : List String :=
  ["key", "path", "display_dims", "fixed_indices", "max_size"]

/-- Keyword arguments of the heatmap branch's `reader.get_heatmap(...)`
call (routes/hdf5.py 608-615); the first five arguments are positional. -/
def heatmap_call_kwargs : List String := ["include_stats"]

/-- Cache-miss path of the `/data` heatmap branch: `TypeError` from the
reader call is caught at routes/hdf5.py 771-775 and mapped to 400. -/
def dataHeatmapMissStatus : Nat :=
  if kwargsAccepted get_heatmap_params heatmap_call_kwargs then 200 else 400

/-- Stats computation inside `get_heatmap` (hdf5_reader.py 404-413): min/max
over the raw pre-sanitized sample exactly when the dtype is numeric — the
function has no `include_stats` input at all. -/
def get_heatmap_stats (numeric : Bool) (raw : List Int) : Option Int × Option Int :=
  if numeric then
    match raw with
    | [] => (none, none)
    | x :: xs => (some (xs.foldl min x), some (xs.foldl max x))
  else (none, none)

/-! ## C7: matrix branch caps (routes/hdf5.py 537-559) -/

def matrixLimitMsg : String :=
  "Matrix limits exceed " ++ toString MAX_MATRIX_ROWS ++ "x" ++
  toString MAX_MATRIX_COLS

/-- Models `min(limit, max(0, size - offset))` (routes/hdf5.py 548-549). -/
def clampedLimit (size offset limit : Nat) : Nat := min limit (size - offset)

structure MatrixPlan where
  rowLimit : Nat
  colLimit : Nat
  outRows : Nat
  outCols : Nat
deriving DecidableEq, Repr

/-- Validation of the matrix branch of `get_data` (routes/hdf5.py 537-559):
clamp the limits to the axis bounds, reject when a clamped (pre-stride)
limit exceeds `MAX_MATRIX_ROWS`/`MAX_MATRIX_COLS`, then compute the
post-stride output dims and enforce the element limits. -/
def matrixValidate (rows cols rowOffset colOffset rowLimit colLimit rowStep colStep : Nat) :
    Except String MatrixPlan :=
  let rl := clampedLimit rows rowOffset rowLimit
  let cl := clampedLimit cols colOffset colLimit
  if MAX_MATRIX_ROWS < rl ∨ MAX_MATRIX_COLS < cl then .error matrixLimitMsg
  else
    let outRows := cdiv rl rowStep
    let outCols := cdiv cl colStep
    match enforce_element_limits (outRows * outCols) with
    | .error e => .error e
    | .ok _ => .ok ⟨rl, cl, outRows, outCols⟩

/-! ## C8: selection normalizer (routes/hdf5.py 48-104 and 160-181) -/

/-- Resolve one dimension token: a negative value is offset by `ndim`, then
the result must lie in `[0, ndim)` (routes/hdf5.py 62-65 and 89-92). -/
def resolveDim (msg : String) (ndim : Nat) (d : Int) : Except String Nat :=
  let r := if d < 0 then (ndim : Int) + d else d
  if r < 0 ∨ (ndim : Int) ≤ r then .error msg else .ok r.toNat

/-- Models `_parse_display_dims` (routes/hdf5.py 48-69) at token level: `none` is a
missing/empty parameter string, `some parts` the integer tokens. -/
def parse_display_dims (param : Option (List Int)) (ndim : Nat) :
    Except String (Option (Nat × Nat)) :=
  if ndim < 2 then .ok none
  else
    match param with
    | none => .ok (some (ndim - 2, ndim - 1))
    | some [a, b] =>
      match resolveDim "display_dims out of range" ndim a,
            resolveDim "display_dims out of range" ndim b with
      | .ok d1, .ok d2 =>
        if d1 = d2 then .error "display_dims must include two distinct dims"
        else .ok (some (d1, d2))
      | .error e, _ => .error e
      | .ok _, .error e => .error e
    | some _ => .error "display_dims must include two distinct dims"

/-- The loop of `_parse_fixed_indices` (routes/hdf5.py 76-93); later tokens
overwrite earlier ones as in a Python dict. -/
def parseFixedLoop (ndim : Nat) : List (Int × Int) → (Nat → Option Int) →
    Except String (Nat → Option Int)
  | [], acc => .ok acc
  | (d, i) :: rest, acc =>
    match resolveDim "fixed_indices dim out of range" ndim d with
    | .error e => .error e
    | .ok dim => parseFixedLoop ndim rest (fun x => if x = dim then some i else acc x)

/-- Models `_parse_fixed_indices` (routes/hdf5.py 72-94) at token level. -/
def parse_fixed_indices (param : Option (List (Int × Int))) (ndim : Nat) :
    Except String (Nat → Option Int) :=
  match param with
  | none => .ok (fun _ => none)
  | some parts => parseFixedLoop ndim parts (fun _ => none)

/-- Deletion of the display dims from the parsed map (routes/hdf5.py 165-168). -/
def dropDisplay (dd : Option (Nat × Nat)) (fi : Nat → Option Int) :
    Nat → Option Int :=
  match dd with
  | none => fi
  | some (a, b) => fun d => if d = a ∨ d = b then none else fi d

def fixedIndexErr (d : Nat) : String :=
  "fixed_indices index out of range for dim " ++ toString d

/-- Normalization of the remaining fixed indices (routes/hdf5.py 170-178):
zero-size axes get index 0; negative indices are offset by the axis size;
out-of-range indices raise.  The Python loop visits the dict's keys (all in
`[0, ndim)` by construction); here every dim below `ndim` is visited in
increasing order, which builds the same map and fails iff the loop fails. -/
def normalizeFixedLoop (shape : List Nat) : List Nat → (Nat → Option Int) →
    (Nat → Option Nat) → Except String (Nat → Option Nat)
  | [], _, out => .ok out
  | d :: rest, fi, out =>
    match fi d with
    | none => normalizeFixedLoop shape rest fi out
    | some idx =>
      let size := shape.getD d 0
      if size = 0 then
        normalizeFixedLoop shape rest fi (fun x => if x = d then some 0 else out x)
      else
        let nidx : Int := if 0 ≤ idx then idx else (size : Int) + idx
        if nidx < 0 ∨ (size : Int) ≤ nidx then .error (fixedIndexErr d)
        else
          normalizeFixedLoop shape rest fi
            (fun x => if x = d then some nidx.toNat else out x)

/-- Membership of a dim in the display pair (`dim in display_dims`). -/
def isDisplayDim (dd : Option (Nat × Nat)) (d : Nat) : Bool :=
  match dd with
  | none => false
  | some (a, b) => d = a || d = b

/-- Models `_fill_fixed_indices` (routes/hdf5.py 97-104); note that Python's
`size // 2 if size > 0 else 0` equals `size / 2` on naturals. -/
def fill_fixed_indices (fi : Nat → Option Nat) (shape : List Nat)
    (dd : Option (Nat × Nat)) : Nat → Option Nat :=
  fun d =>
    if d < shape.length then
      if isDisplayDim dd d then fi d
      else
        match fi d with
        | some v => some v
        | none => some (shape.getD d 0 / 2)
    else fi d

/-- Models `_normalize_selection(shape, display_dims_param, fixed_indices_param)`
(routes/hdf5.py 160-181). -/
def normalize_selection (shape : List Nat) (ddParam : Option (List Int))
    (fiParam : Option (List (Int × Int))) :
    Except String (Option (Nat × Nat) × (Nat → Option Nat)) :=
  match parse_display_dims ddParam shape.length with
  | .error e => .error e
  | .ok dd =>
    match parse_fixed_indices fiParam shape.length with
    | .error e => .error e
    | .ok fi0 =>
      match normalizeFixedLoop shape (List.range shape.length)
          (dropDisplay dd fi0) (fun _ => none) with
      | .error e => .error e
      | .ok fi2 => .ok (dd, fill_fixed_indices fi2 shape dd)

/-- Success projection of a normalized selection. -/
def selOk (r : Except String (Option (Nat × Nat) × (Nat → Option Nat))) : Bool :=
  match r with
  | .ok _ => true
  | .error _ => false

/-- Display-dims projection of a normalized selection. -/
def selDisplay (r : Except String (Option (Nat × Nat) × (Nat → Option Nat))) :
    Option (Option (Nat × Nat)) :=
  match r with
  | .ok (dd, _) => some dd
  | .error _ => none

/-- Fixed-index projection of a normalized selection at one dim. -/
def selFixedAt (r : Except String (Option (Nat × Nat) × (Nat → Option Nat)))
    (d : Nat) : Option (Option Nat) :=
  match r with
  | .ok (_, fi) => some (fi d)
  | .error _ => none

/-- Whether `d` is outside the display pair of a normalized selection. -/
def displayFreeAt (r : Except String (Option (Nat × Nat) × (Nat → Option Nat)))
    (d : Nat) : Bool :=
  match r with
  | .ok (dd, _) => !(isDisplayDim dd d)
  | .error _ => false

/-! ## C9: SimpleCache (utils/cache.py) -/

/-- One cache entry (utils/cache.py 75-79); time is in abstract ticks. -/
structure CacheEntry (α : Type) where
  value : α
  expires_at : Nat
  created_at : Nat
deriving DecidableEq, Repr

/-- Models `SimpleCache`: an ordered map (head = least recently used, tail = most
recent) with a default TTL and an entry bound (utils/cache.py 17-31). -/
structure SimpleCache (α : Type) where
  default_ttl : Nat
  max_entries : Nat
  entries : List (String × CacheEntry α)
deriving DecidableEq, Repr

/-- Python dict lookup (`key in cache` / `cache[key]`); keys are unique. -/
def lookupKey {α : Type} (k : String) : List (String × CacheEntry α) →
    Option (CacheEntry α)
  | [] => none
  | (k2, e) :: rest => if k2 = k then some e else lookupKey k rest

/-- Models `del cache[key]` / the removal part of `move_to_end`; keys are unique,
so removing every occurrence equals removing the one binding. -/
def listRemove {α : Type} (k : String) : List (String × CacheEntry α) →
    List (String × CacheEntry α)
  | [] => []
  | (k2, e) :: rest =>
    if k2 = k then listRemove k rest else (k2, e) :: listRemove k rest

/-- Models `while len(cache) > max_entries: popitem(last=False)` — evict from the
least-recent end (utils/cache.py 81-83). -/
def evictFront {α : Type} (maxEntries : Nat) : List (String × CacheEntry α) →
    List (String × CacheEntry α)
  | [] => []
  | x :: xs => if maxEntries < xs.length + 1 then evictFront maxEntries xs else x :: xs

/-- Models `SimpleCache.get(key)` at time `now` (utils/cache.py 33-58): a miss on an
absent key; lazy expiry removal when `now > expires_at`; a hit promotes the
entry to most-recent (`move_to_end`). -/
def cacheGet {α : Type} (c : SimpleCache α) (now : Nat) (k : String) :
    Option α × SimpleCache α :=
  match lookupKey k c.entries with
  | none => (none, c)
  | some e =>
    if now > e.expires_at then
      (none, { c with entries := listRemove k c.entries })
    else
      (some e.value, { c with entries := listRemove k c.entries ++ [(k, e)] })

/-- Models `SimpleCache.set(key, value, ttl)` at time `now` (utils/cache.py 60-85):
store with `expires_at = now + (ttl or default_ttl)` at the most-recent end
(`move_to_end` + assignment) and evict least-recent entries past the bound. -/
def cacheSet {α : Type} (c : SimpleCache α) (now : Nat) (k : String) (v : α)
    (ttl : Option Nat) : SimpleCache α :=
  let t := ttl.getD c.default_ttl
  let entry : CacheEntry α := ⟨v, now + t, now⟩
  { c with entries := evictFront c.max_entries (listRemove k c.entries ++ [(k, entry)]) }

/-- Models `SimpleCache.delete(key)` (utils/cache.py 87-92). -/
def cacheDelete {α : Type} (c : SimpleCache α) (k : String) : SimpleCache α :=
  { c with entries := listRemove k c.entries }

/-- Models `SimpleCache.clear()` (utils/cache.py 94-99). -/
def cacheClear {α : Type} (c : SimpleCache α) : SimpleCache α :=
  { c with entries := [] }

/-! ## C10: object listing (storage/minio_client.py 38-159, routes/files.py 50-107)

String primitives are modelled on character lists so that every definition
evaluates inside the kernel. -/

def isWsChar (c : Char) : Bool := c = ' ' || c = '\t' || c = '\n' || c = '\r'

/-- Python `str.strip()`. -/
def strTrim (s : String) : String :=
  String.mk (((s.toList.dropWhile isWsChar).reverse.dropWhile isWsChar).reverse)

/-- Python `str.startswith(p)`. -/
def strStartsWith (s p : String) : Bool := isPre p.toList s.toList

/-- Python `str.endswith(p)`. -/
def strEndsWith (s p : String) : Bool := isPre p.toList.reverse s.toList.reverse

/-- Split a character list on a separator character (`str.split(sep)`). -/
def splitChar (c : Char) : List Char → List (List Char)
  | [] => [[]]
  | x :: xs =>
    match splitChar c xs with
    | [] => [[x]]
    | h :: t => if x = c then [] :: h :: t else (x :: h) :: t

/-- Python `key.split('/')`. -/
def strSplitSlash (s : String) : List String := (splitChar '/' s.toList).map String.mk

/-- Python `etag.strip('"')` (minio_client.py 119). -/
def stripQuoteChars (s : String) : String :=
  String.mk (((s.toList.dropWhile (fun c => c = '\"')).reverse.dropWhile
    (fun c => c = '\"')).reverse)

/-- Models `_normalize_prefix` (minio_client.py 38-40): `strip()` then `lstrip('/')`. -/
def normalize_prefix_str (p : String) : String :=
  String.mk ((strTrim p).toList.dropWhile (fun c => c = '/'))

/-- Lexicographic comparison by code point, as Python `sorted` uses. -/
def charListLe : List Char → List Char → Bool
  | [], _ => true
  | _ :: _, [] => false
  | a :: as, b :: bs => if a = b then charListLe as bs else decide (a.toNat < b.toNat)

def strLe (a b : String) : Bool := charListLe a.toList b.toList

def insertSortedStr (x : String) : List String → List String
  | [] => [x]
  | y :: ys => if strLe x y then x :: y :: ys else y :: insertSortedStr x ys

/-- Python `sorted(...)` over folder names (minio_client.py 144). -/
def sortStrings (l : List String) : List String := l.foldr insertSortedStr []

/-- A raw S3 object record as yielded by a `list_objects_v2` page. -/
structure RawObj where
  key : String
  size : Nat
  last_modified : String
  etag : String
deriving DecidableEq, Repr

/-- One entry of the adapter's listing result (minio_client.py 115-146). -/
structure ObjEntry where
  key : String
  size : Nat
  last_modified : Option String
  etag : Option String
  type : String
  is_folder : Bool
deriving DecidableEq, Repr

def fileEntry (o : RawObj) : ObjEntry :=
  ⟨o.key, o.size, some o.last_modified, some (stripQuoteChars o.etag), "file", false⟩

def folderEntry (f : String) : ObjEntry :=
  ⟨f, 0, none, none, "folder", true⟩

/-- Set insertion (the Python `folders` variable is a `set`). -/
def setInsert (s : List String) (x : String) : List String :=
  if x ∈ s then s else s ++ [x]

def setUnionList (s : List String) (xs : List String) : List String :=
  xs.foldl setInsert s

/-- The running-prefix joins of `_derive_parent_folders` (minio_client.py
49-55): `["a","b","c"] ↦ ["a/", "a/b/", "a/b/c/"]`. -/
def runningPrefixes (parts : List String) : List String :=
  (List.range parts.length).map
    (fun i => String.intercalate "/" (parts.take (i + 1)) ++ "/")

/-- Models `_derive_parent_folders(key, normalized_prefix)` (minio_client.py 42-57). -/
def derive_parent_folders (key npfx : String) : List String :=
  let parts := (strSplitSlash key).filter (fun p => p ≠ "")
  if parts.length ≤ 1 then []
  else
    (runningPrefixes parts.dropLast).filter
      (fun folder => npfx = "" || strStartsWith folder npfx)

/-- The inner per-page object loop of `list_objects` (minio_client.py
104-129): skip empty keys, collect folder keys, append file entries, update
derived folders, and break with the reached-limit flag once `max_items`
file entries have been collected. -/
def pageLoop (includeFolders : Bool) (nmax : Option Nat) (npfx : String) :
    List RawObj → List ObjEntry → List String →
    (List ObjEntry × List String × Bool)
  | [], acc, folders => (acc, folders, false)
  | o :: rest, acc, folders =>
    if o.key = "" then pageLoop includeFolders nmax npfx rest acc folders
    else if strEndsWith o.key "/" then
      pageLoop includeFolders nmax npfx rest acc
        (if includeFolders then setInsert folders o.key else folders)
    else
      let acc2 := acc ++ [fileEntry o]
      let folders2 :=
        if includeFolders then
          setUnionList folders (derive_parent_folders o.key npfx)
        else folders
      match nmax with
      | some m =>
        if m ≤ acc2.length then (acc2, folders2, true)
        else pageLoop includeFolders nmax npfx rest acc2 folders2
      | none => pageLoop includeFolders nmax npfx rest acc2 folders2

/-- The paginator loop of `list_objects` (minio_client.py 103-132): stop
after the page on which the limit was reached. -/
def pagesLoop (includeFolders : Bool) (nmax : Option Nat) (npfx : String) :
    List (List RawObj) → List ObjEntry → List String →
    (List ObjEntry × List String × Bool)
  | [], acc, folders => (acc, folders, false)
  | p :: ps, acc, folders =>
    match pageLoop includeFolders nmax npfx p acc folders with
    | (acc2, folders2, true) => (acc2, folders2, true)
    | (acc2, folders2, false) => pagesLoop includeFolders nmax npfx ps acc2 folders2

/-- Models `MinIOClient.list_objects` (minio_client.py 59-159) with the internal
reached-limit flag made explicit: normalize the prefix and `max_items`, run
the pagination loops, and append the sorted folder entries. -/
def listObjectsImpl (pages : List (List RawObj)) (pfx : String)
    (includeFolders : Bool) (maxItems : Option Nat) : List ObjEntry × Bool :=
  let npfx := normalize_prefix_str pfx
  let nmax := maxItems.map (fun m => max 1 m)
  match pagesLoop includeFolders nmax npfx pages [] [] with
  | (objs, folders, reached) =>
    if includeFolders && !folders.isEmpty then
      (objs ++ (sortStrings folders).map folderEntry, reached)
    else (objs, reached)

/-- The adapter's return value: only the entry list.  The reached-limit flag
is computed, logged (minio_client.py 148-154) and then discarded — the
result carries no truncation flag. -/
def list_objects (pages : List (List RawObj)) (pfx : String)
    (includeFolders : Bool) (maxItems : Option Nat) : List ObjEntry :=
  (listObjectsImpl pages pfx includeFolders maxItems).1

/-- Whether pagination was actually cut short in a run of `list_objects`. -/
def listObjectsReachedLimit (pages : List (List RawObj)) (pfx : String)
    (includeFolders : Bool) (maxItems : Option Nat) : Bool :=
  (listObjectsImpl pages pfx includeFolders maxItems).2

/-- Models `files_count` of the listing route (routes/files.py 89). -/
def files_count (entries : List ObjEntry) : Nat :=
  (entries.filter (fun e => e.type = "file")).length

/-- The route's `truncated = files_count >= max_items` (routes/files.py 91). -/
def list_files_truncated (entries : List ObjEntry) (maxItems : Nat) : Bool :=
  maxItems ≤ files_count entries

/-- Raw objects that the loop counts as files (nonempty key, no `/` suffix). -/
def rawIsFile (o : RawObj) : Bool := o.key ≠ "" && !(strEndsWith o.key "/")

def pageFileCount (objs : List RawObj) : Nat := (objs.filter rawIsFile).length

/-- Total number of file objects offered by the paginator. -/
def totalFileObjs (pages : List (List RawObj)) : Nat :=
  (pages.map pageFileCount).sum

/-!
## Theorems
-/

theorem cdiv_le_self (a b : Nat) (hb : 1 ≤ b) : cdiv a b ≤ a := by
  unfold cdiv
  have hK : a ≤ a * b := by
    calc a = a * 1 := (Nat.mul_one a).symm
    _ ≤ a * b := Nat.mul_le_mul_left a hb
  have hexp : (a + 1) * b = a * b + b := by ring
  have hlt : a + b - 1 < (a + 1) * b := by omega
  have := (Nat.div_lt_iff_lt_mul (by omega : 0 < b)).mpr hlt
  omega

theorem cdiv_zero_left (b : Nat) : cdiv 0 b = 0 := by
  unfold cdiv
  rcases Nat.eq_zero_or_pos b with hb | hb
  · subst hb; rfl
  · exact Nat.div_eq_of_lt (by omega)

/-- Shows `b * cdiv a b ≥ a` for `b ≥ 1`. -/
theorem le_mul_cdiv (a b : Nat) (hb : 1 ≤ b) : a ≤ b * cdiv a b := by
  unfold cdiv
  have h := Nat.div_add_mod (a + b - 1) b
  have hm : (a + b - 1) % b < b := Nat.mod_lt _ (by omega)
  omega

/-- Shows `cdiv r s ≤ m` whenever `r ≤ s * m` and `s ≥ 1`. -/
theorem cdiv_le_of_le_mul (r s m : Nat) (hs : 1 ≤ s) (h : r ≤ s * m) :
    cdiv r s ≤ m := by
  unfold cdiv
  have hexp : (m + 1) * s = m * s + s := by ring
  have hcomm : s * m = m * s := by ring
  have hlt : r + s - 1 < (m + 1) * s := by omega
  have := (Nat.div_lt_iff_lt_mul (by omega : 0 < s)).mpr hlt
  omega

theorem projected_cells_mono (rows cols : Nat) {s t : Nat} (h : s ≤ t) :
    projected_cells rows cols s ≤ projected_cells rows cols t :=
  Nat.mul_le_mul (min_le_min (le_refl rows) h) (min_le_min (le_refl cols) h)

/-- Invariant-carrying specification of the binary-search loop. -/
theorem safeHeatmapLoop_spec (rows cols r : Nat) :
    ∀ fuel low high best,
      1 ≤ low →
      high + 1 - low ≤ fuel →
      high ≤ r →
      best ≤ r →
      projected_cells rows cols best ≤ heatmapCap →
      (∀ t, t < low → projected_cells rows cols t ≤ heatmapCap → t ≤ best) →
      (∀ t, high < t → t ≤ r → ¬ projected_cells rows cols t ≤ heatmapCap) →
      projected_cells rows cols (safeHeatmapLoop rows cols fuel low high best) ≤ heatmapCap ∧
      safeHeatmapLoop rows cols fuel low high best ≤ r ∧
      (∀ t, t ≤ r → projected_cells rows cols t ≤ heatmapCap →
        t ≤ safeHeatmapLoop rows cols fuel low high best) := by
  intro fuel
  induction fuel with
  | zero =>
    intro low high best hlow hfuel hhr hbr hbest hmax hhigh
    have hlh : high < low := by omega
    refine ⟨hbest, hbr, ?_⟩
    intro t htr hts
    by_cases hcase : t < low
    · exact hmax t hcase hts
    · exact absurd hts (hhigh t (by omega) htr)
  | succ n ih =>
    intro low high best hlow hfuel hhr hbr hbest hmax hhigh
    by_cases hlh : low ≤ high
    · have hmid_lo : low ≤ (low + high) / 2 := by omega
      have hmid_hi : (low + high) / 2 ≤ high := by omega
      by_cases hproj : projected_cells rows cols ((low + high) / 2) ≤ heatmapCap
      · have hres := ih ((low + high) / 2 + 1) high ((low + high) / 2)
          (by omega) (by omega) hhr (by omega) hproj
          (by intro t ht _; omega)
          hhigh
        simpa [safeHeatmapLoop, hlh, hproj] using hres
      · have hres := ih low ((low + high) / 2 - 1) best
          hlow (by omega) (by omega) hbr hbest hmax
          (by
            intro t ht htr
            have hmt : (low + high) / 2 ≤ t := by omega
            exact fun hc => hproj (le_trans (projected_cells_mono rows cols hmt) hc))
        simpa [safeHeatmapLoop, hlh, hproj] using hres
    · refine ⟨?_, ?_, ?_⟩ <;> simp only [safeHeatmapLoop, if_neg hlh]
      · exact hbest
      · exact hbr
      · intro t htr hts
        by_cases hcase : t < low
        · exact hmax t hcase hts
        · exact absurd hts (hhigh t (by omega) htr)

/-- C4 core: the effective size is the largest `s ≤ requested` with
`min(rows,s) * min(cols,s) ≤ min(MAX_JSON_ELEMENTS, MAX_ELEMENTS)`. -/
theorem compute_safe_heatmap_size_spec (rows cols requested : Nat)
    (hreq : 1 ≤ requested) :
    compute_safe_heatmap_size rows cols requested ≤ requested ∧
    projected_cells rows cols (compute_safe_heatmap_size rows cols requested) ≤ heatmapCap ∧
    (∀ t, t ≤ requested → projected_cells rows cols t ≤ heatmapCap →
      t ≤ compute_safe_heatmap_size rows cols requested) := by
  have hne : requested ≠ 0 := by omega
  by_cases hfast : projected_cells rows cols requested ≤ heatmapCap
  · have heq : compute_safe_heatmap_size rows cols requested = requested := by
      simp [compute_safe_heatmap_size, hne, hfast]
    rw [heq]
    exact ⟨le_refl _, hfast, fun t ht _ => ht⟩
  · have hone : projected_cells rows cols 1 ≤ heatmapCap := by
      have h1 : projected_cells rows cols 1 ≤ 1 := by
        unfold projected_cells
        calc min rows 1 * min cols 1 ≤ 1 * 1 :=
          Nat.mul_le_mul (Nat.min_le_right _ _) (Nat.min_le_right _ _)
        _ = 1 := by omega
      exact le_trans h1 (by unfold heatmapCap MAX_JSON_ELEMENTS MAX_ELEMENTS; omega)
    have hres := safeHeatmapLoop_spec rows cols requested (requested + 1) 1 requested 1
      (le_refl 1) (by omega) (le_refl _) hreq hone
      (by intro t ht hts; omega)
      (by intro t ht htr; omega)
    have heq : compute_safe_heatmap_size rows cols requested =
        safeHeatmapLoop rows cols (requested + 1) 1 requested 1 := by
      simp [compute_safe_heatmap_size, hne, hfast]
    rw [heq]
    exact ⟨hres.2.1, hres.1, hres.2.2⟩

/-- C4: for all `rows ≥ 0`, `cols ≥ 0` and requested `max_size ≥ 1`, the
planner's effective heatmap size `s` satisfies `s ≤ requested`,
`min(rows,s) * min(cols,s) ≤ min(MAX_JSON_ELEMENTS, MAX_ELEMENTS) = 500000`,
and `s` is the largest value `≤ requested` with that property; the heatmap
branch echoes `effective_max_size = s` and sets `max_size_clamped` iff
`s ≠ requested`. -/
theorem C4_heatmap_planner (rows cols requested : Nat) (hreq : 1 ≤ requested) :
    compute_safe_heatmap_size rows cols requested ≤ requested ∧
    projected_cells rows cols (compute_safe_heatmap_size rows cols requested) ≤
      min MAX_JSON_ELEMENTS MAX_ELEMENTS ∧
    min MAX_JSON_ELEMENTS MAX_ELEMENTS = 500000 ∧
    (∀ t, t ≤ requested → projected_cells rows cols t ≤ min MAX_JSON_ELEMENTS MAX_ELEMENTS →
      t ≤ compute_safe_heatmap_size rows cols requested) ∧
    (∀ echo, heatmapBranchSizes rows cols requested = .ok echo →
      echo.requested_max_size = requested ∧
      echo.effective_max_size = compute_safe_heatmap_size rows cols requested ∧
      (echo.max_size_clamped = true ↔
        compute_safe_heatmap_size rows cols requested ≠ requested)) := by
  have hspec := compute_safe_heatmap_size_spec rows cols requested hreq
  refine ⟨hspec.1, hspec.2.1, by decide, hspec.2.2, ?_⟩
  intro echo hecho
  unfold heatmapBranchSizes at hecho
  by_cases hguard : requested > MAX_HEATMAP_SIZE
  · simp [hguard] at hecho
  · simp only [hguard, if_false] at hecho
    rcases hlim : enforce_element_limits
        (min rows (compute_safe_heatmap_size rows cols requested) *
         min cols (compute_safe_heatmap_size rows cols requested)) with e | u
    · rw [hlim] at hecho; exact absurd hecho (by simp)
    · rw [hlim] at hecho
      simp only [Except.ok.injEq] at hecho
      subst hecho
      refine ⟨rfl, rfl, ?_⟩
      simp [bne_iff_ne]

/-- C4 witness: the spec's scenario S4, shape `[5000, 5000]` with
`max_size = 1024`, gives effective size 707 with `max_size_clamped`. -/
theorem C4_heatmap_planner_witness :
    (1 : Nat) ≤ 1024 ∧
    compute_safe_heatmap_size 5000 5000 1024 = 707 ∧
    (compute_safe_heatmap_size 5000 5000 1024 ≤ 1024 ∧
     projected_cells 5000 5000 (compute_safe_heatmap_size 5000 5000 1024) ≤
       min MAX_JSON_ELEMENTS MAX_ELEMENTS ∧
     min MAX_JSON_ELEMENTS MAX_ELEMENTS = 500000 ∧
     (∀ t, t ≤ 1024 → projected_cells 5000 5000 t ≤ min MAX_JSON_ELEMENTS MAX_ELEMENTS →
       t ≤ compute_safe_heatmap_size 5000 5000 1024) ∧
     (∀ echo, heatmapBranchSizes 5000 5000 1024 = .ok echo →
       echo.requested_max_size = 1024 ∧
       echo.effective_max_size = compute_safe_heatmap_size 5000 5000 1024 ∧
       (echo.max_size_clamped = true ↔
         compute_safe_heatmap_size 5000 5000 1024 ≠ 1024))) :=
  ⟨by decide, by decide, C4_heatmap_planner 5000 5000 1024 (by decide)⟩

/-! ## C5/C6 theorems -/

theorem cdiv_one (a : Nat) : cdiv a 1 = a := by
  unfold cdiv; simp

/-- C5: for every `/data` line request with a well-formed geometry:
`quality=auto` succeeds and applies `exact` iff the clamped window is at most
`MAX_LINE_EXACT_POINTS = 20000`; `quality=exact` with a larger window is
rejected before any read with the `Exact line window exceeds` message,
which maps to status 400. -/
theorem C5_line_quality (shape : List Nat) (displayDims : Option (Nat × Nat))
    (lineDim : Option LineDimParam) (lineIndex : Option Nat) (lineOffset : Nat)
    (lineLimitParam : Option Nat) (maxPointsParam : Option Nat) (geom : LineGeom)
    (hgeom : lineGeometry shape displayDims lineDim lineIndex = .ok geom)
    (hmp : ∀ m, maxPointsParam = some m → 1 ≤ m) :
    (∃ plan,
      planLine shape displayDims lineDim .auto lineIndex lineOffset
        lineLimitParam maxPointsParam = .ok plan ∧
      (plan.qualityApplied = Quality.exact ↔
        lineWindow geom.lineLength lineOffset lineLimitParam ≤ MAX_LINE_EXACT_POINTS)) ∧
    (MAX_LINE_EXACT_POINTS < lineWindow geom.lineLength lineOffset lineLimitParam →
      planLine shape displayDims lineDim .exact lineIndex lineOffset
        lineLimitParam maxPointsParam = .error exactWindowMsg ∧
      lineReadCount (planLine shape displayDims lineDim .exact lineIndex lineOffset
        lineLimitParam maxPointsParam) = 0 ∧
      previewDataErrStatus (.valueError exactWindowMsg) = 400 ∧
      strContainsStr exactWindowMsg "Exact line window exceeds" = true) := by
  have hmp1 : 1 ≤ min (maxPointsParam.getD MAX_LINE_POINTS) MAX_LINE_POINTS := by
    rcases maxPointsParam with _ | m
    · decide
    · have := hmp m rfl
      simp only [Option.getD_some]
      have : (1 : Nat) ≤ MAX_LINE_POINTS := by decide
      omega
  constructor
  · set requested := lineWindow geom.lineLength lineOffset lineLimitParam with hreq
    by_cases hw : requested ≤ MAX_LINE_EXACT_POINTS
    · unfold planLine
      rw [hgeom]
      simp only [qualityDecision, ← hreq, if_pos hw]
      have hstep : (if (Quality.exact = Quality.overview ∧ 0 < requested) then
          max 1 (cdiv requested (min (maxPointsParam.getD MAX_LINE_POINTS) MAX_LINE_POINTS))
          else 1) = 1 := by
        rw [if_neg]; rintro ⟨h, -⟩; exact Quality.noConfusion h
      rw [hstep]
      have hout : (if 0 < requested then cdiv requested 1 else 0) ≤ MAX_JSON_ELEMENTS := by
        split
        · rw [cdiv_one]
          exact le_trans hw (by decide)
        · exact Nat.zero_le _
      have henf : enforce_element_limits (if 0 < requested then cdiv requested 1 else 0) =
          .ok () := by
        unfold enforce_element_limits
        rw [if_neg (by omega), if_neg]
        have : MAX_JSON_ELEMENTS ≤ MAX_ELEMENTS := by decide
        omega
      rw [henf]
      exact ⟨_, rfl, ⟨fun _ => hw, fun _ => rfl⟩⟩
    · unfold planLine
      rw [hgeom]
      simp only [qualityDecision, ← hreq, if_neg hw]
      set mp := min (maxPointsParam.getD MAX_LINE_POINTS) MAX_LINE_POINTS with hmpdef
      have hpos : 0 < requested := by omega
      have hstep : (if (True ∧ 0 < requested) then
          max 1 (cdiv requested mp) else 1) = max 1 (cdiv requested mp) :=
        if_pos ⟨trivial, hpos⟩
      rw [hstep]
      have hs1 : 1 ≤ max 1 (cdiv requested mp) := le_max_left _ _
      have hrs : requested ≤ max 1 (cdiv requested mp) * mp := by
        have h1 : requested ≤ mp * cdiv requested mp := le_mul_cdiv requested mp hmp1
        have h2 : cdiv requested mp ≤ max 1 (cdiv requested mp) := le_max_right _ _
        calc requested ≤ mp * cdiv requested mp := h1
        _ ≤ mp * max 1 (cdiv requested mp) := Nat.mul_le_mul_left mp h2
        _ = max 1 (cdiv requested mp) * mp := Nat.mul_comm _ _
      have hout : cdiv requested (max 1 (cdiv requested mp)) ≤ mp :=
        cdiv_le_of_le_mul _ _ _ hs1 hrs
      have hmp5 : mp ≤ MAX_LINE_POINTS := min_le_right _ _
      have henf : enforce_element_limits
          (if 0 < requested then cdiv requested (max 1 (cdiv requested mp)) else 0) =
          .ok () := by
        rw [if_pos hpos]
        unfold enforce_element_limits
        have hle : cdiv requested (max 1 (cdiv requested mp)) ≤ MAX_JSON_ELEMENTS := by
          have : MAX_LINE_POINTS ≤ MAX_JSON_ELEMENTS := by decide
          omega
        rw [if_neg (by omega), if_neg]
        have : MAX_JSON_ELEMENTS ≤ MAX_ELEMENTS := by decide
        omega
      rw [henf]
      refine ⟨_, rfl, ?_⟩
      constructor
      · intro h
        exact absurd h (by simp)
      · intro h
        exact absurd h hw
  · intro hover
    have herr : planLine shape displayDims lineDim .exact lineIndex lineOffset
        lineLimitParam maxPointsParam = .error exactWindowMsg := by
      unfold planLine
      rw [hgeom]
      simp only [qualityDecision, if_pos hover]
    refine ⟨herr, ?_, by decide, by decide⟩
    rw [herr]
    rfl

/-- C5 witness: the spec's scenario S3 — shape `[2000000]`,
`quality=exact`, `line_limit=500000` — is rejected with status 400 and the
`Exact line window exceeds` message before any read. -/
theorem C5_line_quality_witness :
    lineGeometry [2000000] none none none = .ok ⟨2000000, "dim", none⟩ ∧
    MAX_LINE_EXACT_POINTS < lineWindow 2000000 0 (some 500000) ∧
    (planLine [2000000] none none .exact none 0 (some 500000) none =
      .error exactWindowMsg ∧
     lineReadCount (planLine [2000000] none none .exact none 0 (some 500000) none) = 0 ∧
     previewDataErrStatus (.valueError exactWindowMsg) = 400 ∧
     strContainsStr exactWindowMsg "Exact line window exceeds" = true) :=
  ⟨by decide, by decide,
    (C5_line_quality [2000000] none none none 0 (some 500000) none
      ⟨2000000, "dim", none⟩ (by decide) (fun m hm => by cases hm)).2 (by decide)⟩

/-- Inversion: a successful line plan records the clamped window, the applied
quality, and the step/output expressions of routes/hdf5.py 705-709. -/
theorem planLine_ok_inv (shape : List Nat) (displayDims : Option (Nat × Nat))
    (lineDim : Option LineDimParam) (quality : Quality)
    (lineIndex : Option Nat) (lineOffset : Nat)
    (lineLimitParam maxPointsParam : Option Nat) (plan : LinePlan)
    (hplan : planLine shape displayDims lineDim quality lineIndex lineOffset
      lineLimitParam maxPointsParam = .ok plan) :
    ∃ geom, lineGeometry shape displayDims lineDim lineIndex = .ok geom ∧
      ∃ qa, qualityDecision quality
          (lineWindow geom.lineLength lineOffset lineLimitParam) = .ok qa ∧
        plan.qualityApplied = qa ∧
        plan.requestedPoints = lineWindow geom.lineLength lineOffset lineLimitParam ∧
        plan.lineStep = (if qa = Quality.overview ∧ 0 < plan.requestedPoints then
          max 1 (cdiv plan.requestedPoints
            (min (maxPointsParam.getD MAX_LINE_POINTS) MAX_LINE_POINTS)) else 1) ∧
        plan.outputPoints =
          (if 0 < plan.requestedPoints then cdiv plan.requestedPoints plan.lineStep
           else 0) := by
  unfold planLine at hplan
  rcases hg : lineGeometry shape displayDims lineDim lineIndex with e | geom
  · rw [hg] at hplan; exact absurd hplan (by simp)
  · rw [hg] at hplan
    dsimp only at hplan
    refine ⟨geom, rfl, ?_⟩
    rcases hq : qualityDecision quality
        (lineWindow geom.lineLength lineOffset lineLimitParam) with e | qa
    · rw [hq] at hplan; exact absurd hplan (by simp)
    · rw [hq] at hplan
      dsimp only at hplan
      refine ⟨qa, rfl, ?_⟩
      rcases henf : enforce_element_limits
          (if 0 < lineWindow geom.lineLength lineOffset lineLimitParam then
            cdiv (lineWindow geom.lineLength lineOffset lineLimitParam)
              (if qa = Quality.overview ∧
                  0 < lineWindow geom.lineLength lineOffset lineLimitParam then
                max 1 (cdiv (lineWindow geom.lineLength lineOffset lineLimitParam)
                  (min (maxPointsParam.getD MAX_LINE_POINTS) MAX_LINE_POINTS))
              else 1)
          else 0) with e | u
      · rw [henf] at hplan; exact absurd hplan (by simp)
      · rw [henf] at hplan
        simp only [Except.ok.injEq] at hplan
        subst hplan
        exact ⟨rfl, rfl, rfl, rfl⟩

/-- Helper: the clamped `max_points` (routes/hdf5.py 649-651) is ≥ 1 whenever
the parsed parameter is (the route parses it with `min_value = 1`). -/
theorem maxPointsClamped_pos (maxPointsParam : Option Nat)
    (hmp : ∀ m, maxPointsParam = some m → 1 ≤ m) :
    1 ≤ min (maxPointsParam.getD MAX_LINE_POINTS) MAX_LINE_POINTS := by
  rcases maxPointsParam with _ | m
  · decide
  · have := hmp m rfl
    simp only [Option.getD_some]
    have h5 : (1 : Nat) ≤ MAX_LINE_POINTS := by decide
    omega

/-- C6: under `overview` quality with a nonempty window,
`line_step = max(1, ceil(requested / max_points))` with `max_points` clamped
to `MAX_LINE_POINTS = 5000`, and the output size `ceil(requested / line_step)`
is at most `max_points` and at most 5000; under `exact`, `line_step = 1`. -/
theorem C6_line_step (shape : List Nat) (displayDims : Option (Nat × Nat))
    (lineDim : Option LineDimParam) (quality : Quality)
    (lineIndex : Option Nat) (lineOffset : Nat)
    (lineLimitParam maxPointsParam : Option Nat) (plan : LinePlan)
    (hmp : ∀ m, maxPointsParam = some m → 1 ≤ m)
    (hplan : planLine shape displayDims lineDim quality lineIndex lineOffset
      lineLimitParam maxPointsParam = .ok plan) :
    (plan.qualityApplied = Quality.overview → 0 < plan.requestedPoints →
      plan.lineStep = max 1 (cdiv plan.requestedPoints
        (min (maxPointsParam.getD MAX_LINE_POINTS) MAX_LINE_POINTS)) ∧
      plan.outputPoints = cdiv plan.requestedPoints plan.lineStep ∧
      plan.outputPoints ≤ min (maxPointsParam.getD MAX_LINE_POINTS) MAX_LINE_POINTS ∧
      plan.outputPoints ≤ MAX_LINE_POINTS) ∧
    (plan.qualityApplied = Quality.exact → plan.lineStep = 1) := by
  obtain ⟨geom, hg, qa, hq, hqa, hr, hstep, hout⟩ :=
    planLine_ok_inv shape displayDims lineDim quality lineIndex lineOffset
      lineLimitParam maxPointsParam plan hplan
  have hmp1 := maxPointsClamped_pos maxPointsParam hmp
  set mp := min (maxPointsParam.getD MAX_LINE_POINTS) MAX_LINE_POINTS with hmpdef
  constructor
  · intro hover hpos
    rw [hqa] at hover
    subst hover
    rw [if_pos ⟨rfl, hpos⟩] at hstep
    rw [if_pos hpos] at hout
    refine ⟨hstep, hout, ?_, ?_⟩
    · rw [hout, hstep]
      have hs1 : 1 ≤ max 1 (cdiv plan.requestedPoints mp) := le_max_left _ _
      have hrs : plan.requestedPoints ≤ max 1 (cdiv plan.requestedPoints mp) * mp := by
        have h1 : plan.requestedPoints ≤ mp * cdiv plan.requestedPoints mp :=
          le_mul_cdiv plan.requestedPoints mp hmp1
        have h2 : cdiv plan.requestedPoints mp ≤ max 1 (cdiv plan.requestedPoints mp) :=
          le_max_right _ _
        calc plan.requestedPoints ≤ mp * cdiv plan.requestedPoints mp := h1
        _ ≤ mp * max 1 (cdiv plan.requestedPoints mp) := Nat.mul_le_mul_left mp h2
        _ = max 1 (cdiv plan.requestedPoints mp) * mp := Nat.mul_comm _ _
      exact cdiv_le_of_le_mul _ _ _ hs1 hrs
    · rw [hout, hstep]
      have hs1 : 1 ≤ max 1 (cdiv plan.requestedPoints mp) := le_max_left _ _
      have hrs : plan.requestedPoints ≤ max 1 (cdiv plan.requestedPoints mp) * mp := by
        have h1 : plan.requestedPoints ≤ mp * cdiv plan.requestedPoints mp :=
          le_mul_cdiv plan.requestedPoints mp hmp1
        have h2 : cdiv plan.requestedPoints mp ≤ max 1 (cdiv plan.requestedPoints mp) :=
          le_max_right _ _
        calc plan.requestedPoints ≤ mp * cdiv plan.requestedPoints mp := h1
        _ ≤ mp * max 1 (cdiv plan.requestedPoints mp) := Nat.mul_le_mul_left mp h2
        _ = max 1 (cdiv plan.requestedPoints mp) * mp := Nat.mul_comm _ _
      have hle : cdiv plan.requestedPoints (max 1 (cdiv plan.requestedPoints mp)) ≤ mp :=
        cdiv_le_of_le_mul _ _ _ hs1 hrs
      have hmp5 : mp ≤ MAX_LINE_POINTS := min_le_right _ _
      omega
  · intro hexact
    rw [hqa] at hexact
    subst hexact
    rw [if_neg] at hstep
    · exact hstep
    · rintro ⟨h, -⟩
      exact Quality.noConfusion h

/-- C6 witness: the spec's scenario S2 — shape `[5000000]`, `mode=line`
with default quality — yields overview with `line_step = 1000` and
5000 returned points. -/
theorem C6_line_step_witness :
    planLine [5000000] none none .auto none 0 none none =
      .ok ⟨"dim", none, 0, 5000000, 1000, Quality.overview, 5000000, 5000⟩ ∧
    ((Quality.overview = Quality.overview → 0 < (5000000 : Nat) →
       (1000 : Nat) = max 1 (cdiv 5000000 (min ((none : Option Nat).getD MAX_LINE_POINTS) MAX_LINE_POINTS)) ∧
       (5000 : Nat) = cdiv 5000000 1000 ∧
       (5000 : Nat) ≤ min ((none : Option Nat).getD MAX_LINE_POINTS) MAX_LINE_POINTS ∧
       (5000 : Nat) ≤ MAX_LINE_POINTS) ∧
     (Quality.overview = Quality.exact → (1000 : Nat) = 1)) :=
  ⟨by decide,
    C6_line_step [5000000] none none .auto none 0 none none
      ⟨"dim", none, 0, 5000000, 1000, Quality.overview, 5000000, 5000⟩
      (fun m hm => by cases hm) (by decide)⟩

/-- C3: not-found mapping of the four endpoints.  The code gives 404 only on
`/preview` and `/data`; `/children` answers 200 with an empty list on an
absent path (and 500 if the reader raises), and `/meta` answers 500 — the
repository's own tests (test_hdf5_routes.py, `test_children_not_found` and
`test_meta_not_found`) expect 404 from all four. -/
theorem C3_not_found_status :
    childrenRouteStatus get_children_absent_path = 200 ∧
    childrenRouteStatus (.error (.valueError (notFoundMsg "/missing" "sample.h5"))) = 500 ∧
    metaRouteStatus (.error (.valueError (notFoundMsg "/missing" "sample.h5"))) = 500 ∧
    is_not_found_error (.valueError (notFoundMsg "/missing" "sample.h5")) = true ∧
    previewDataErrStatus (.valueError (notFoundMsg "/missing" "sample.h5")) = 404 := by
  refine ⟨rfl, rfl, rfl, by decide, by decide⟩

/-- C1: the reader's payload does carry every claimed field, but the route
passes keyword arguments (`display_dims_param`, `include_stats`, `detail`,
...) that `get_preview` does not accept, so every cache-miss `/preview`
request on an existing dataset ends in `TypeError` → 400, never 2xx. -/
theorem C1_preview_route_broken :
    claimed_preview_fields.all (fun k => get_preview_payload_keys.contains k) = true ∧
    kwargsAccepted get_preview_params preview_call_kwargs = false ∧
    preview_call_kwargs.contains "display_dims_param" = true ∧
    get_preview_params.contains "display_dims_param" = false ∧
    previewRouteMissStatus = 400 := by decide

/-- C2: the heatmap branch passes `include_stats=` to a reader method that
has no such parameter, so every cache-miss heatmap request fails with
`TypeError` → 400; moreover the reader computes stats whenever the dtype is
numeric, independent of any `include_stats` flag. -/
theorem C2_heatmap_route_broken :
    kwargsAccepted get_heatmap_params heatmap_call_kwargs = false ∧
    get_heatmap_params.contains "include_stats" = false ∧
    dataHeatmapMissStatus = 400 ∧
    get_heatmap_stats true [3, 1, 2] = (some 1, some 3) ∧
    get_heatmap_stats false [3, 1, 2] = (none, none) := by decide

/-- C7 counterexample: a selection whose post-stride output dims are within
the 2000-caps (1000 × 10), yet the branch rejects it, because the caps are
checked on the pre-stride clamped limits (4000 > 2000). -/
theorem C7_counterexample :
    matrixValidate 4000 10 0 0 4000 10 4 1 = .error matrixLimitMsg ∧
    cdiv (clampedLimit 4000 0 4000) 4 ≤ MAX_MATRIX_ROWS ∧
    cdiv (clampedLimit 10 0 10) 1 ≤ MAX_MATRIX_COLS := by decide

/-- C7 (amended): the 2000-caps are enforced on the clamped pre-stride
limits; the branch rejects exactly when a clamped limit exceeds its cap or
the post-stride element count exceeds `MAX_JSON_ELEMENTS`.  A post-stride
output dim over its cap still always implies rejection, and every accepted
plan has post-stride dims within the caps. -/
theorem C7_matrix_caps (rows cols rowOffset colOffset rowLimit colLimit rowStep colStep : Nat)
    (hrs : 1 ≤ rowStep) (hcs : 1 ≤ colStep) :
    ((∃ e, matrixValidate rows cols rowOffset colOffset rowLimit colLimit rowStep colStep =
        .error e) ↔
      (MAX_MATRIX_ROWS < clampedLimit rows rowOffset rowLimit ∨
       MAX_MATRIX_COLS < clampedLimit cols colOffset colLimit ∨
       MAX_JSON_ELEMENTS < cdiv (clampedLimit rows rowOffset rowLimit) rowStep *
         cdiv (clampedLimit cols colOffset colLimit) colStep)) ∧
    ((MAX_MATRIX_ROWS < cdiv (clampedLimit rows rowOffset rowLimit) rowStep ∨
      MAX_MATRIX_COLS < cdiv (clampedLimit cols colOffset colLimit) colStep) →
      matrixValidate rows cols rowOffset colOffset rowLimit colLimit rowStep colStep =
        .error matrixLimitMsg) ∧
    (∀ p, matrixValidate rows cols rowOffset colOffset rowLimit colLimit rowStep colStep =
        .ok p →
      p.outRows = cdiv (clampedLimit rows rowOffset rowLimit) rowStep ∧
      p.outCols = cdiv (clampedLimit cols colOffset colLimit) colStep ∧
      p.outRows ≤ MAX_MATRIX_ROWS ∧ p.outCols ≤ MAX_MATRIX_COLS) := by
  set rl := clampedLimit rows rowOffset rowLimit with hrl
  set cl := clampedLimit cols colOffset colLimit with hcl
  have hor : cdiv rl rowStep ≤ rl := cdiv_le_self rl rowStep hrs
  have hoc : cdiv cl colStep ≤ cl := cdiv_le_self cl colStep hcs
  by_cases hcap : MAX_MATRIX_ROWS < rl ∨ MAX_MATRIX_COLS < cl
  · have hv : matrixValidate rows cols rowOffset colOffset rowLimit colLimit rowStep colStep =
        .error matrixLimitMsg := by
      unfold matrixValidate
      rw [← hrl, ← hcl, if_pos hcap]
    refine ⟨⟨fun _ => ?_, fun _ => ⟨_, hv⟩⟩, fun _ => hv, ?_⟩
    · rcases hcap with h | h
      · exact Or.inl h
      · exact Or.inr (Or.inl h)
    · intro p hp
      rw [hv] at hp
      exact absurd hp (by simp)
  · push_neg at hcap
    by_cases hj : MAX_JSON_ELEMENTS < cdiv rl rowStep * cdiv cl colStep
    · have hv : matrixValidate rows cols rowOffset colOffset rowLimit colLimit rowStep colStep =
          .error ("Selection too large for JSON (" ++
            toString (cdiv rl rowStep * cdiv cl colStep) ++ " > " ++
            toString MAX_JSON_ELEMENTS ++ " elements)") := by
        unfold matrixValidate
        rw [← hrl, ← hcl, if_neg (by push_neg; exact hcap)]
        dsimp only
        unfold enforce_element_limits
        rw [if_pos hj]
      refine ⟨⟨fun _ => Or.inr (Or.inr hj), fun _ => ⟨_, hv⟩⟩, ?_, ?_⟩
      · intro hpre
        exfalso
        rcases hpre with h | h
        · omega
        · omega
      · intro p hp
        rw [hv] at hp
        exact absurd hp (by simp)
    · have hv : matrixValidate rows cols rowOffset colOffset rowLimit colLimit rowStep colStep =
          .ok ⟨rl, cl, cdiv rl rowStep, cdiv cl colStep⟩ := by
        unfold matrixValidate
        rw [← hrl, ← hcl, if_neg (by push_neg; exact hcap)]
        dsimp only
        unfold enforce_element_limits
        rw [if_neg (by omega), if_neg (by
          have : MAX_JSON_ELEMENTS ≤ MAX_ELEMENTS := by decide
          omega)]
      refine ⟨⟨?_, ?_⟩, ?_, ?_⟩
      · rintro ⟨e, he⟩
        rw [hv] at he
        exact absurd he (by simp)
      · intro h
        rcases h with h | h | h
        · omega
        · omega
        · omega
      · intro hpre
        exfalso
        rcases hpre with h | h
        · omega
        · omega
      · intro p hp
        rw [hv] at hp
        simp only [Except.ok.injEq] at hp
        subst hp
        refine ⟨rfl, rfl, ?_, ?_⟩ <;> dsimp only <;> omega

/-- C7 witness: a 4000×4000 full-window request with unit strides is
rejected with the matrix-limits message; a small window is accepted. -/
theorem C7_matrix_caps_witness :
    (1 : Nat) ≤ 1 ∧
    matrixValidate 10 20 0 0 3 4 1 1 = .ok ⟨3, 4, 3, 4⟩ ∧
    matrixValidate 4000 4000 0 0 4000 4000 1 1 = .error matrixLimitMsg :=
  ⟨by decide, by decide,
    (C7_matrix_caps 4000 4000 0 0 4000 4000 1 1 (by decide) (by decide)).2.1
      (Or.inl (by decide))⟩

theorem resolveDim_lt (msg : String) (ndim : Nat) (d : Int) (r : Nat)
    (h : resolveDim msg ndim d = .ok r) : r < ndim := by
  unfold resolveDim at h
  by_cases hc : (if d < 0 then (ndim : Int) + d else d) < 0 ∨
      (ndim : Int) ≤ (if d < 0 then (ndim : Int) + d else d)
  · rw [if_pos hc] at h
    exact absurd h (by simp)
  · rw [if_neg hc] at h
    simp only [Except.ok.injEq] at h
    subst h
    push_neg at hc
    omega

theorem parse_display_dims_spec (param : Option (List Int)) (ndim : Nat)
    (dd : Option (Nat × Nat)) (h : parse_display_dims param ndim = .ok dd) :
    (dd = none ↔ ndim < 2) ∧
    (∀ a b, dd = some (a, b) → a ≠ b ∧ a < ndim ∧ b < ndim) := by
  unfold parse_display_dims at h
  by_cases hn : ndim < 2
  · rw [if_pos hn] at h
    simp only [Except.ok.injEq] at h
    subst h
    exact ⟨⟨fun _ => hn, fun _ => rfl⟩, fun a b hab => absurd hab (by simp)⟩
  · rw [if_neg hn] at h
    rcases param with - | parts
    · simp only [Except.ok.injEq] at h
      subst h
      refine ⟨⟨fun hc => absurd hc (by simp), fun hc => absurd hc hn⟩, ?_⟩
      intro a b hab
      simp only [Option.some.injEq, Prod.mk.injEq] at hab
      omega
    · rcases parts with - | ⟨a0, parts⟩
      · exact absurd h (by simp)
      · rcases parts with - | ⟨b0, parts⟩
        · exact absurd h (by simp)
        · rcases parts with - | ⟨c0, parts⟩
          · dsimp only at h
            rcases hra : resolveDim "display_dims out of range" ndim a0 with e | d1
            · rw [hra] at h
              exact absurd h (by simp)
            · rcases hrb : resolveDim "display_dims out of range" ndim b0 with e | d2
              · rw [hra, hrb] at h
                exact absurd h (by simp)
              · rw [hra, hrb] at h
                dsimp only at h
                by_cases heq : d1 = d2
                · rw [if_pos heq] at h
                  exact absurd h (by simp)
                · rw [if_neg heq] at h
                  simp only [Except.ok.injEq] at h
                  subst h
                  refine ⟨⟨fun hc => absurd hc (by simp), fun hc => absurd hc hn⟩, ?_⟩
                  intro a b hab
                  simp only [Option.some.injEq, Prod.mk.injEq] at hab
                  obtain ⟨rfl, rfl⟩ := hab
                  exact ⟨heq, resolveDim_lt _ _ _ _ hra, resolveDim_lt _ _ _ _ hrb⟩
          · exact absurd h (by simp)

theorem parseFixedLoop_bounded (ndim : Nat) :
    ∀ (parts : List (Int × Int)) (acc res : Nat → Option Int),
      parseFixedLoop ndim parts acc = .ok res →
      (∀ x, ndim ≤ x → acc x = none) →
      ∀ x, ndim ≤ x → res x = none := by
  intro parts
  induction parts with
  | nil =>
    intro acc res h hacc
    unfold parseFixedLoop at h
    simp only [Except.ok.injEq] at h
    subst h
    exact hacc
  | cons p rest ih =>
    rcases p with ⟨d, i⟩
    intro acc res h hacc
    unfold parseFixedLoop at h
    rcases hr : resolveDim "fixed_indices dim out of range" ndim d with e | dim
    · rw [hr] at h
      exact absurd h (by simp)
    · rw [hr] at h
      refine ih _ res h ?_
      intro x hx
      have hdim : dim < ndim := resolveDim_lt _ _ _ _ hr
      rw [if_neg (by omega)]
      exact hacc x hx

theorem parse_fixed_indices_bounded (param : Option (List (Int × Int))) (ndim : Nat)
    (fi0 : Nat → Option Int) (h : parse_fixed_indices param ndim = .ok fi0) :
    ∀ x, ndim ≤ x → fi0 x = none := by
  unfold parse_fixed_indices at h
  rcases param with - | parts
  · simp only [Except.ok.injEq] at h
    subst h
    intro x _
    rfl
  · exact parseFixedLoop_bounded ndim parts _ fi0 h (fun x _ => rfl)

theorem normalizeFixedLoop_spec (shape : List Nat) :
    ∀ (ds : List Nat) (fi : Nat → Option Int) (out res : Nat → Option Nat),
      normalizeFixedLoop shape ds fi out = .ok res →
      (∀ d, d ∉ ds → res d = out d) ∧
      (∀ d, d ∈ ds →
        (fi d = none → res d = out d) ∧
        (fi d ≠ none →
          ∃ v, res d = some v ∧ (shape.getD d 0 = 0 → v = 0) ∧
            (0 < shape.getD d 0 → v < shape.getD d 0))) := by
  intro ds
  induction ds with
  | nil =>
    intro fi out res h
    unfold normalizeFixedLoop at h
    simp only [Except.ok.injEq] at h
    subst h
    exact ⟨fun d _ => rfl, fun d hd => absurd hd (List.not_mem_nil d)⟩
  | cons d0 rest ih =>
    intro fi out res h
    unfold normalizeFixedLoop at h
    rcases hfi : fi d0 with - | idx
    · rw [hfi] at h
      obtain ⟨h1, h2⟩ := ih fi out res h
      constructor
      · intro d hd
        exact h1 d (fun hm => hd (List.mem_cons_of_mem d0 hm))
      · intro d hd
        rcases List.mem_cons.mp hd with rfl | hmem
        · by_cases hdr : d ∈ rest
          · refine ⟨fun hn => (h2 d hdr).1 hn, fun hn => (h2 d hdr).2 hn⟩
          · exact ⟨fun _ => h1 d hdr, fun hn => absurd hfi hn⟩
        · exact h2 d hmem
    · rw [hfi] at h
      dsimp only at h
      by_cases hsz : shape.getD d0 0 = 0
      · rw [if_pos hsz] at h
        obtain ⟨h1, h2⟩ := ih fi (fun x => if x = d0 then some 0 else out x) res h
        constructor
        · intro d hd
          have hd0 : d ≠ d0 := fun hc => hd (hc ▸ List.mem_cons_self d0 rest)
          have hdr : d ∉ rest := fun hm => hd (List.mem_cons_of_mem d0 hm)
          rw [h1 d hdr, if_neg hd0]
        · intro d hd
          rcases List.mem_cons.mp hd with rfl | hmem
          · refine ⟨fun hn => absurd hfi (by rw [hn]; simp), fun _ => ?_⟩
            by_cases hdr : d ∈ rest
            · exact (h2 d hdr).2 (by rw [hfi]; simp)
            · refine ⟨0, ?_, fun _ => rfl, fun hpos => absurd hsz (by omega)⟩
              rw [h1 d hdr, if_pos rfl]
          · constructor
            · intro hn
              by_cases hdd : d = d0
              · subst hdd
                exact absurd hfi (by rw [hn]; simp)
              · rw [(h2 d hmem).1 hn, if_neg hdd]
            · exact fun hn => (h2 d hmem).2 hn
      · rw [if_neg hsz] at h
        by_cases hrange : (if 0 ≤ idx then idx else (shape.getD d0 0 : Int) + idx) < 0 ∨
            (shape.getD d0 0 : Int) ≤ (if 0 ≤ idx then idx else (shape.getD d0 0 : Int) + idx)
        · rw [if_pos hrange] at h
          exact absurd h (by simp)
        · rw [if_neg hrange] at h
          obtain ⟨h1, h2⟩ := ih fi
            (fun x => if x = d0 then
              some (if 0 ≤ idx then idx else (shape.getD d0 0 : Int) + idx).toNat
              else out x) res h
          push_neg at hrange
          constructor
          · intro d hd
            have hd0 : d ≠ d0 := fun hc => hd (hc ▸ List.mem_cons_self d0 rest)
            have hdr : d ∉ rest := fun hm => hd (List.mem_cons_of_mem d0 hm)
            rw [h1 d hdr, if_neg hd0]
          · intro d hd
            rcases List.mem_cons.mp hd with rfl | hmem
            · refine ⟨fun hn => absurd hfi (by rw [hn]; simp), fun _ => ?_⟩
              by_cases hdr : d ∈ rest
              · exact (h2 d hdr).2 (by rw [hfi]; simp)
              · refine ⟨(if 0 ≤ idx then idx else (shape.getD d 0 : Int) + idx).toNat,
                  ?_, fun hz => absurd hz hsz, fun _ => by omega⟩
                rw [h1 d hdr, if_pos rfl]
            · constructor
              · intro hn
                by_cases hdd : d = d0
                · subst hdd
                  exact absurd hfi (by rw [hn]; simp)
                · rw [(h2 d hmem).1 hn, if_neg hdd]
              · exact fun hn => (h2 d hmem).2 hn

/-- C8 (amended): for every shape and parameter pair the normalizer accepts:
`display_dims` is absent iff `ndim < 2`, and otherwise names two distinct
axes below `ndim`; each display axis carries no fixed index; every
non-display axis below `ndim` carries a fixed index that is within
`[0, shape[axis])` whenever the axis has positive size and is 0 on
zero-size axes (défault `size/2` when no index was supplied); axes at or
above `ndim` carry nothing. -/
theorem C8_selection_invariants (shape : List Nat) (ddParam : Option (List Int))
    (fiParam : Option (List (Int × Int)))
    (hok : selOk (normalize_selection shape ddParam fiParam) = true) :
    (selDisplay (normalize_selection shape ddParam fiParam) = some none ↔
      shape.length < 2) ∧
    (∀ a b, selDisplay (normalize_selection shape ddParam fiParam) = some (some (a, b)) →
      a ≠ b ∧ a < shape.length ∧ b < shape.length) ∧
    (∀ d a b, selDisplay (normalize_selection shape ddParam fiParam) = some (some (a, b)) →
      (d = a ∨ d = b) →
      selFixedAt (normalize_selection shape ddParam fiParam) d = some none) ∧
    (∀ d, d < shape.length →
      displayFreeAt (normalize_selection shape ddParam fiParam) d = true →
      ∃ v, selFixedAt (normalize_selection shape ddParam fiParam) d = some (some v) ∧
        (0 < shape.getD d 0 → v < shape.getD d 0) ∧
        (shape.getD d 0 = 0 → v = 0)) ∧
    (∀ d, shape.length ≤ d →
      selFixedAt (normalize_selection shape ddParam fiParam) d = some none) ∧
    (∀ fi0, parse_fixed_indices fiParam shape.length = .ok fi0 →
      ∀ d, d < shape.length →
        displayFreeAt (normalize_selection shape ddParam fiParam) d = true →
        fi0 d = none →
        selFixedAt (normalize_selection shape ddParam fiParam) d =
          some (some (shape.getD d 0 / 2))) := by
  rcases hres : normalize_selection shape ddParam fiParam with e | ⟨dd, fi⟩
  · rw [hres] at hok
    exact absurd hok (by simp [selOk])
  · unfold normalize_selection at hres
    rcases hdd : parse_display_dims ddParam shape.length with e | dd0
    · rw [hdd] at hres; exact absurd hres (by simp)
    · rw [hdd] at hres
      dsimp only at hres
      rcases hfi0 : parse_fixed_indices fiParam shape.length with e | fi0
      · rw [hfi0] at hres; exact absurd hres (by simp)
      · rw [hfi0] at hres
        dsimp only at hres
        rcases hloop : normalizeFixedLoop shape (List.range shape.length)
            (dropDisplay dd0 fi0) (fun _ => none) with e | fi2
        · rw [hloop] at hres; exact absurd hres (by simp)
        · rw [hloop] at hres
          simp only [Except.ok.injEq, Prod.mk.injEq] at hres
          obtain ⟨hresd, hresf⟩ := hres
          subst hresd
          subst hresf
          obtain ⟨hpd_none, hpd_bounds⟩ :=
            parse_display_dims_spec ddParam shape.length dd0 hdd
          obtain ⟨hl1, hl2⟩ := normalizeFixedLoop_spec shape (List.range shape.length)
            (dropDisplay dd0 fi0) (fun _ => none) fi2 hloop
          refine ⟨?_, ?_, ?_, ?_, ?_, ?_⟩
          · dsimp only [selDisplay]
            constructor
            · intro h
              exact hpd_none.mp (Option.some_inj.mp h)
            · intro h
              rw [hpd_none.mpr h]
          · dsimp only [selDisplay]
            intro a b hab
            exact hpd_bounds a b (Option.some_inj.mp hab)
          · dsimp only [selDisplay, selFixedAt]
            intro d a b hab hd
            have hdd0 : dd0 = some (a, b) := Option.some_inj.mp hab
            subst hdd0
            have hfi2 : fi2 d = none := by
              by_cases hlen : d < shape.length
              · have hmem := List.mem_range.mpr hlen
                have hnone : dropDisplay (some (a, b)) fi0 d = none := by
                  unfold dropDisplay
                  dsimp only
                  rw [if_pos hd]
                exact (hl2 d hmem).1 hnone
              · exact hl1 d (fun hm => hlen (List.mem_range.mp hm))
            have hdisp : isDisplayDim (some (a, b)) d = true := by
              unfold isDisplayDim
              rcases hd with rfl | rfl <;> simp
            have hfill : fill_fixed_indices fi2 shape (some (a, b)) d = none := by
              unfold fill_fixed_indices
              by_cases hlen : d < shape.length
              · rw [if_pos hlen, if_pos hdisp]
                exact hfi2
              · rw [if_neg hlen]
                exact hfi2
            rw [hfill]
          · dsimp only [selFixedAt, displayFreeAt]
            intro d hlen hfree'
            have hdisp : isDisplayDim dd0 d = false := by
              cases hc : isDisplayDim dd0 d
              · rfl
              · rw [hc] at hfree'; exact absurd hfree' (by simp)
            have hdrop : dropDisplay dd0 fi0 d = fi0 d := by
              unfold dropDisplay
              rcases dd0 with - | ⟨a, b⟩
              · rfl
              · dsimp only
                rw [if_neg]
                intro hor
                unfold isDisplayDim at hdisp
                rcases hor with rfl | rfl <;> simp at hdisp
            have hmem := List.mem_range.mpr hlen
            rcases hfd : fi0 d with - | idx
            · have hfi2 : fi2 d = none := (hl2 d hmem).1 (hdrop.trans hfd)
              refine ⟨shape.getD d 0 / 2, ?_, ?_, ?_⟩
              · have hfill : fill_fixed_indices fi2 shape dd0 d =
                    some (shape.getD d 0 / 2) := by
                  unfold fill_fixed_indices
                  rw [if_pos hlen, if_neg (by rw [hdisp]; simp), hfi2]
                rw [hfill]
              · intro hpos
                exact Nat.div_lt_self hpos (by omega)
              · intro hz
                rw [hz]
            · have hne : dropDisplay dd0 fi0 d ≠ none := by
                rw [hdrop, hfd]; simp
              obtain ⟨v, hv, hz, hb⟩ := (hl2 d hmem).2 hne
              refine ⟨v, ?_, hb, hz⟩
              have hfill : fill_fixed_indices fi2 shape dd0 d = some v := by
                unfold fill_fixed_indices
                rw [if_pos hlen, if_neg (by rw [hdisp]; simp), hv]
              rw [hfill]
          · dsimp only [selFixedAt]
            intro d hlen
            have hfi2 : fi2 d = none :=
              hl1 d (fun hm => by have := List.mem_range.mp hm; omega)
            have hfill : fill_fixed_indices fi2 shape dd0 d = none := by
              unfold fill_fixed_indices
              rw [if_neg (by omega)]
              exact hfi2
            rw [hfill]
          · dsimp only [selFixedAt, displayFreeAt]
            intro g hg d hlen hfree' hf0
            have hgeq : g = fi0 := (Except.ok.inj hg).symm
            rw [hgeq] at hf0
            have hdisp : isDisplayDim dd0 d = false := by
              cases hc : isDisplayDim dd0 d
              · rfl
              · rw [hc] at hfree'; exact absurd hfree' (by simp)
            have hdrop : dropDisplay dd0 fi0 d = fi0 d := by
              unfold dropDisplay
              rcases dd0 with - | ⟨a, b⟩
              · rfl
              · dsimp only
                rw [if_neg]
                intro hor
                unfold isDisplayDim at hdisp
                rcases hor with rfl | rfl <;> simp at hdisp
            have hmem := List.mem_range.mpr hlen
            have hfi2 : fi2 d = none := (hl2 d hmem).1 (hdrop.trans hf0)
            have hfill : fill_fixed_indices fi2 shape dd0 d =
                some (shape.getD d 0 / 2) := by
              unfold fill_fixed_indices
              rw [if_pos hlen, if_neg (by rw [hdisp]; simp), hfi2]
            rw [hfill]

/-- C8 counterexample: on shape `[0, 5, 5]` with no parameters the
normalizer succeeds and assigns fixed index 0 to axis 0 although
`shape[0] = 0`, so the index is not in the empty range `[0, shape[0])` —
the claim as stated fails for zero-size axes. -/
theorem C8_counterexample :
    selDisplay (normalize_selection [0, 5, 5] none none) = some (some (1, 2)) ∧
    selFixedAt (normalize_selection [0, 5, 5] none none) 0 = some (some 0) ∧
    List.getD [0, 5, 5] 0 0 = 0 := by
  refine ⟨rfl, rfl, rfl⟩

/-- C8 witness: the spec's scenario S5 — shape `[10, 20, 30]`,
`display_dims=1,2`, `fixed_indices=0=-1` — normalizes to display `(1, 2)`
with fixed index 9 on axis 0. -/
theorem C8_selection_invariants_witness :
    selOk (normalize_selection [10, 20, 30] (some [1, 2]) (some [(0, -1)])) = true ∧
    selDisplay (normalize_selection [10, 20, 30] (some [1, 2]) (some [(0, -1)])) =
      some (some (1, 2)) ∧
    selFixedAt (normalize_selection [10, 20, 30] (some [1, 2]) (some [(0, -1)])) 0 =
      some (some 9) ∧
    (∀ d, d < 3 →
      displayFreeAt (normalize_selection [10, 20, 30] (some [1, 2]) (some [(0, -1)])) d = true →
      ∃ v, selFixedAt (normalize_selection [10, 20, 30] (some [1, 2]) (some [(0, -1)])) d =
          some (some v) ∧
        (0 < List.getD [10, 20, 30] d 0 → v < List.getD [10, 20, 30] d 0) ∧
        (List.getD [10, 20, 30] d 0 = 0 → v = 0)) :=
  ⟨by decide, by decide, by decide,
    (C8_selection_invariants [10, 20, 30] (some [1, 2]) (some [(0, -1)])
      (by decide)).2.2.2.1⟩

theorem evictFront_length {α : Type} (maxEntries : Nat) :
    ∀ l : List (String × CacheEntry α), (evictFront maxEntries l).length ≤ maxEntries := by
  intro l
  induction l with
  | nil => simp [evictFront]
  | cons x xs ih =>
    unfold evictFront
    by_cases h : maxEntries < xs.length + 1
    · rw [if_pos h]; exact ih
    · rw [if_neg h]; simp; omega

theorem evictFront_keeps_last {α : Type} (maxEntries : Nat) (hmax : 1 ≤ maxEntries) :
    ∀ (l : List (String × CacheEntry α)) (x : String × CacheEntry α),
      ∃ l2, evictFront maxEntries (l ++ [x]) = l2 ++ [x] ∧
        ∀ p ∈ l2, p ∈ l := by
  intro l
  induction l with
  | nil =>
    intro x
    refine ⟨[], ?_, by simp⟩
    show evictFront maxEntries [x] = [x]
    unfold evictFront
    rw [if_neg (by simp only [List.length_nil]; omega)]
  | cons y ys ih =>
    intro x
    by_cases h : maxEntries < ((y :: ys) ++ [x]).length
    · obtain ⟨l2, hl2, hsub⟩ := ih x
      refine ⟨l2, ?_, fun p hp => List.mem_cons_of_mem y (hsub p hp)⟩
      show evictFront maxEntries (y :: (ys ++ [x])) = l2 ++ [x]
      unfold evictFront
      rw [if_pos (by simpa using h)]
      exact hl2
    · refine ⟨y :: ys, ?_, fun p hp => hp⟩
      show evictFront maxEntries (y :: (ys ++ [x])) = (y :: ys) ++ [x]
      unfold evictFront
      rw [if_neg (by simpa using h)]
      simp

theorem lookupKey_append_last {α : Type} (k : String) (e : CacheEntry α) :
    ∀ l : List (String × CacheEntry α), (∀ p ∈ l, p.1 ≠ k) →
      lookupKey k (l ++ [(k, e)]) = some e := by
  intro l
  induction l with
  | nil => intro _; simp [lookupKey]
  | cons x xs ih =>
    intro hl
    show lookupKey k (x :: (xs ++ [(k, e)])) = some e
    unfold lookupKey
    rw [if_neg (hl x (List.mem_cons_self x xs))]
    exact ih (fun p hp => hl p (List.mem_cons_of_mem x hp))

theorem listRemove_not_key {α : Type} (k : String) :
    ∀ l : List (String × CacheEntry α), ∀ p ∈ listRemove k l, p.1 ≠ k := by
  intro l
  induction l with
  | nil => intro p hp; exact absurd hp (List.not_mem_nil p)
  | cons x xs ih =>
    rcases x with ⟨k2, e⟩
    intro p hp
    unfold listRemove at hp
    by_cases hx : k2 = k
    · rw [if_pos hx] at hp
      exact ih p hp
    · rw [if_neg hx] at hp
      rcases List.mem_cons.mp hp with rfl | hmem
      · exact hx
      · exact ih p hmem

theorem listRemove_length_le {α : Type} (k : String) :
    ∀ l : List (String × CacheEntry α), (listRemove k l).length ≤ l.length := by
  intro l
  induction l with
  | nil => exact le_refl _
  | cons x xs ih =>
    rcases x with ⟨k2, e⟩
    unfold listRemove
    by_cases hx : k2 = k
    · rw [if_pos hx]
      simp only [List.length_cons]
      omega
    · rw [if_neg hx]
      simp only [List.length_cons]
      omega

theorem listRemove_length_lt {α : Type} (k : String) :
    ∀ l : List (String × CacheEntry α), lookupKey k l ≠ none →
      (listRemove k l).length + 1 ≤ l.length := by
  intro l
  induction l with
  | nil => intro h; exact absurd rfl h
  | cons x xs ih =>
    rcases x with ⟨k2, e⟩
    intro h
    unfold listRemove
    by_cases hx : k2 = k
    · rw [if_pos hx]
      have := listRemove_length_le k xs
      simp only [List.length_cons]
      omega
    · rw [if_neg hx]
      have hlk : lookupKey k xs ≠ none := by
        unfold lookupKey at h
        rw [if_neg hx] at h
        exact h
      have := ih hlk
      simp only [List.length_cons]
      omega

/-- C9: every SimpleCache operation preserves the entry bound; `get` on a
present unexpired key returns the value and moves the entry to the
most-recent end; `get` past `expires_at` removes the entry and misses; `set`
stores `expires_at = now + (ttl or default_ttl)` at the most-recent end and
then evicts least-recent entries until the bound holds. -/
theorem C9_simple_cache {α : Type} (c : SimpleCache α) (now : Nat) (k : String)
    (v : α) (ttl : Option Nat)
    (hmax : 1 ≤ c.max_entries)
    (hbound : c.entries.length ≤ c.max_entries) :
    ((cacheGet c now k).2.entries.length ≤ c.max_entries) ∧
    (∀ e, lookupKey k c.entries = some e → ¬ now > e.expires_at →
      cacheGet c now k =
        (some e.value, { c with entries := listRemove k c.entries ++ [(k, e)] })) ∧
    (∀ e, lookupKey k c.entries = some e → now > e.expires_at →
      cacheGet c now k = (none, { c with entries := listRemove k c.entries })) ∧
    ((cacheSet c now k v ttl).entries.length ≤ c.max_entries) ∧
    (lookupKey k (cacheSet c now k v ttl).entries =
      some ⟨v, now + ttl.getD c.default_ttl, now⟩) ∧
    ((cacheDelete c k).entries.length ≤ c.max_entries ∧
      (cacheClear c).entries.length ≤ c.max_entries) := by
  refine ⟨?_, ?_, ?_, ?_, ?_, ?_, ?_⟩
  · unfold cacheGet
    rcases hlk : lookupKey k c.entries with - | e
    · exact hbound
    · dsimp only
      by_cases hexp : now > e.expires_at
      · rw [if_pos hexp]
        have := listRemove_length_le k c.entries
        dsimp only
        omega
      · rw [if_neg hexp]
        have := listRemove_length_lt k c.entries (by rw [hlk]; simp)
        dsimp only
        rw [List.length_append]
        simp only [List.length_cons, List.length_nil]
        omega
  · intro e hlk hexp
    unfold cacheGet
    rw [hlk]
    dsimp only
    rw [if_neg hexp]
  · intro e hlk hexp
    unfold cacheGet
    rw [hlk]
    dsimp only
    rw [if_pos hexp]
  · unfold cacheSet
    exact evictFront_length c.max_entries _
  · unfold cacheSet
    dsimp only
    obtain ⟨l2, hl2, hsub⟩ := evictFront_keeps_last c.max_entries hmax
      (listRemove k c.entries) (k, ⟨v, now + ttl.getD c.default_ttl, now⟩)
    rw [hl2]
    exact lookupKey_append_last k _ l2
      (fun p hp => listRemove_not_key k c.entries p (hsub p hp))
  · unfold cacheDelete
    have := listRemove_length_le k c.entries
    dsimp only
    omega
  · unfold cacheClear
    simp

/-- C9 witness: a two-entry cache; a fresh hit at time 5 returns the value
and keeps the entry; at time 20 the entry (expiring at 10) is dropped and
missed; a set at time 5 with the 30-tick default TTL stores expiry 35. -/
theorem C9_simple_cache_witness :
    (1 : Nat) ≤ 2 ∧
    cacheGet (⟨30, 2, [("a", ⟨1, 10, 0⟩)]⟩ : SimpleCache Nat) 5 "a" =
      (some 1, ⟨30, 2, [("a", ⟨1, 10, 0⟩)]⟩) ∧
    cacheGet (⟨30, 2, [("a", ⟨1, 10, 0⟩)]⟩ : SimpleCache Nat) 20 "a" =
      (none, ⟨30, 2, []⟩) ∧
    lookupKey "b" (cacheSet (⟨30, 2, [("a", ⟨1, 10, 0⟩)]⟩ : SimpleCache Nat)
      5 "b" 7 none).entries = some ⟨7, 35, 5⟩ ∧
    (cacheSet (⟨30, 2, [("a", ⟨1, 10, 0⟩)]⟩ : SimpleCache Nat)
      5 "b" 7 none).entries.length ≤ 2 :=
  ⟨by decide,
    (C9_simple_cache (⟨30, 2, [("a", ⟨1, 10, 0⟩)]⟩ : SimpleCache Nat) 5 "a" 7 none
      (by decide) (by decide)).2.1 ⟨1, 10, 0⟩ (by decide) (by decide),
    (C9_simple_cache (⟨30, 2, [("a", ⟨1, 10, 0⟩)]⟩ : SimpleCache Nat) 20 "a" 7 none
      (by decide) (by decide)).2.2.1 ⟨1, 10, 0⟩ (by decide) (by decide),
    (C9_simple_cache (⟨30, 2, [("a", ⟨1, 10, 0⟩)]⟩ : SimpleCache Nat) 5 "b" 7 none
      (by decide) (by decide)).2.2.2.2.1,
    (C9_simple_cache (⟨30, 2, [("a", ⟨1, 10, 0⟩)]⟩ : SimpleCache Nat) 5 "b" 7 none
      (by decide) (by decide)).2.2.2.1⟩

theorem pageLoop_spec (includeFolders : Bool) (m : Nat) (npfx : String) :
    ∀ (objs : List RawObj) (acc : List ObjEntry) (folders : List String),
      (∀ e ∈ acc, e.type = "file") →
      acc.length < m →
      (∀ e ∈ (pageLoop includeFolders (some m) npfx objs acc folders).1,
        e.type = "file") ∧
      ((pageLoop includeFolders (some m) npfx objs acc folders).2.2 = true →
        (pageLoop includeFolders (some m) npfx objs acc folders).1.length = m) ∧
      ((pageLoop includeFolders (some m) npfx objs acc folders).2.2 = false →
        (pageLoop includeFolders (some m) npfx objs acc folders).1.length =
          acc.length + pageFileCount objs ∧
        (pageLoop includeFolders (some m) npfx objs acc folders).1.length < m) := by
  intro objs
  induction objs with
  | nil =>
    intro acc folders hacc hlen
    refine ⟨hacc, ?_, ?_⟩
    · intro h
      exact absurd h (by simp [pageLoop])
    · intro _
      exact ⟨by simp [pageLoop, pageFileCount], by simpa [pageLoop] using hlen⟩
  | cons o rest ih =>
    intro acc folders hacc hlen
    by_cases hk : o.key = ""
    · have heq : pageLoop includeFolders (some m) npfx (o :: rest) acc folders =
          pageLoop includeFolders (some m) npfx rest acc folders := by
        conv_lhs => rw [pageLoop]
        rw [if_pos hk]
      have hcount : pageFileCount (o :: rest) = pageFileCount rest := by
        have hco : rawIsFile o = false := by simp [rawIsFile, hk]
        simp [pageFileCount, List.filter_cons, hco]
      rw [heq, hcount]
      exact ih acc folders hacc hlen
    · by_cases hs : strEndsWith o.key "/" = true
      · have heq : pageLoop includeFolders (some m) npfx (o :: rest) acc folders =
            pageLoop includeFolders (some m) npfx rest acc
              (if includeFolders then setInsert folders o.key else folders) := by
          conv_lhs => rw [pageLoop]
          rw [if_neg hk, if_pos hs]
        have hcount : pageFileCount (o :: rest) = pageFileCount rest := by
          have hco : rawIsFile o = false := by simp [rawIsFile, hs]
          simp [pageFileCount, List.filter_cons, hco]
        rw [heq, hcount]
        exact ih acc _ hacc hlen
      · have hacc2 : ∀ e ∈ acc ++ [fileEntry o], e.type = "file" := by
          intro e he
          rcases List.mem_append.mp he with h1 | h2
          · exact hacc e h1
          · rcases List.mem_singleton.mp h2 with rfl
            rfl
        have hlen2 : (acc ++ [fileEntry o]).length = acc.length + 1 := by simp
        have hcount : pageFileCount (o :: rest) = pageFileCount rest + 1 := by
          have hco : rawIsFile o = true := by
            simp [rawIsFile, hk, hs]
          simp [pageFileCount, List.filter_cons, hco]
        have heq : pageLoop includeFolders (some m) npfx (o :: rest) acc folders =
            (if m ≤ (acc ++ [fileEntry o]).length then
              (acc ++ [fileEntry o],
               (if includeFolders then
                  setUnionList folders (derive_parent_folders o.key npfx)
                else folders), true)
            else
              pageLoop includeFolders (some m) npfx rest (acc ++ [fileEntry o])
                (if includeFolders then
                  setUnionList folders (derive_parent_folders o.key npfx)
                else folders)) := by
          conv_lhs => rw [pageLoop]
          rw [if_neg hk, if_neg hs]
        by_cases hm : m ≤ (acc ++ [fileEntry o]).length
        · rw [heq, if_pos hm]
          refine ⟨hacc2, ?_, ?_⟩
          · intro _
            rw [hlen2] at hm ⊢
            omega
          · intro h
            exact absurd h (by simp)
        · rw [heq, if_neg hm]
          obtain ⟨ha, hb, hc⟩ := ih (acc ++ [fileEntry o])
            (if includeFolders then
              setUnionList folders (derive_parent_folders o.key npfx)
             else folders)
            hacc2 (by rw [hlen2] at hm ⊢; omega)
          refine ⟨ha, hb, ?_⟩
          intro hfalse
          obtain ⟨h1, h2⟩ := hc hfalse
          exact ⟨by omega, h2⟩

theorem pagesLoop_spec (includeFolders : Bool) (m : Nat) (npfx : String) :
    ∀ (pages : List (List RawObj)) (acc : List ObjEntry) (folders : List String),
      (∀ e ∈ acc, e.type = "file") →
      acc.length < m →
      (∀ e ∈ (pagesLoop includeFolders (some m) npfx pages acc folders).1,
        e.type = "file") ∧
      ((pagesLoop includeFolders (some m) npfx pages acc folders).2.2 = true →
        (pagesLoop includeFolders (some m) npfx pages acc folders).1.length = m) ∧
      ((pagesLoop includeFolders (some m) npfx pages acc folders).2.2 = false →
        (pagesLoop includeFolders (some m) npfx pages acc folders).1.length =
          acc.length + totalFileObjs pages ∧
        (pagesLoop includeFolders (some m) npfx pages acc folders).1.length < m) := by
  intro pages
  induction pages with
  | nil =>
    intro acc folders hacc hlen
    refine ⟨hacc, ?_, ?_⟩
    · intro h
      exact absurd h (by simp [pagesLoop])
    · intro _
      exact ⟨by simp [pagesLoop, totalFileObjs], by simpa [pagesLoop] using hlen⟩
  | cons p ps ih =>
    intro acc folders hacc hlen
    obtain ⟨ha, hb, hc⟩ := pageLoop_spec includeFolders m npfx p acc folders hacc hlen
    rcases hr : pageLoop includeFolders (some m) npfx p acc folders with ⟨a2, f2, reached⟩
    rw [hr] at ha hb hc
    have htot : totalFileObjs (p :: ps) = pageFileCount p + totalFileObjs ps := by
      simp [totalFileObjs]
    cases reached
    · have heq : pagesLoop includeFolders (some m) npfx (p :: ps) acc folders =
          pagesLoop includeFolders (some m) npfx ps a2 f2 := by
        conv_lhs => rw [pagesLoop]
        rw [hr]
      rw [heq]
      obtain ⟨h1, h2⟩ := hc rfl
      simp only [List.length_cons] at h1 h2
      obtain ⟨ha2, hb2, hc2⟩ := ih a2 f2 (fun e he => ha e he) h2
      refine ⟨ha2, hb2, ?_⟩
      intro hfalse
      obtain ⟨h3, h4⟩ := hc2 hfalse
      refine ⟨?_, h4⟩
      rw [h3, htot]
      omega
    · have heq : pagesLoop includeFolders (some m) npfx (p :: ps) acc folders =
          (a2, f2, true) := by
        conv_lhs => rw [pagesLoop]
        rw [hr]
      rw [heq]
      exact ⟨fun e he => ha e he, fun _ => hb rfl, fun h => absurd h (by simp)⟩

theorem files_count_all : ∀ objs : List ObjEntry,
    (∀ e ∈ objs, e.type = "file") → files_count objs = objs.length := by
  intro objs
  induction objs with
  | nil => intro _; rfl
  | cons x xs ih =>
    intro h
    have hx : x.type = "file" := h x (List.mem_cons_self x xs)
    have hxs := ih (fun e he => h e (List.mem_cons_of_mem x he))
    simp only [files_count, List.filter_cons] at hxs ⊢
    rw [if_pos (by simp [hx]), List.length_cons, hxs, List.length_cons]

theorem files_count_map_folder : ∀ fs : List String,
    files_count (fs.map folderEntry) = 0 := by
  intro fs
  induction fs with
  | nil => rfl
  | cons f fs ih =>
    simp only [List.map_cons, files_count, List.filter_cons] at ih ⊢
    rw [if_neg (by simp [folderEntry])]
    exact ih

theorem files_count_append (a b : List ObjEntry) :
    files_count (a ++ b) = files_count a + files_count b := by
  simp [files_count, List.filter_append]

/-- C10 (amended): the adapter returns only the entry list (its internal
reached-limit flag is logged and discarded); the route recomputes
`truncated = files_count ≥ max_items`.  That flag is true whenever
pagination was actually cut short (some file object was not returned), the
number of returned file entries never exceeds `max_items` — but `truncated`
can be true when nothing was omitted. -/
theorem C10_truncated (pages : List (List RawObj)) (pfx : String)
    (includeFolders : Bool) (m : Nat) (hm : 1 ≤ m) :
    (list_files_truncated (list_objects pages pfx includeFolders (some m)) m = true ↔
      m ≤ files_count (list_objects pages pfx includeFolders (some m))) ∧
    files_count (list_objects pages pfx includeFolders (some m)) ≤ m ∧
    (files_count (list_objects pages pfx includeFolders (some m)) < totalFileObjs pages →
      list_files_truncated (list_objects pages pfx includeFolders (some m)) m = true) := by
  have spec := pagesLoop_spec includeFolders m (normalize_prefix_str pfx) pages [] []
    (by intro e he; exact absurd he (List.not_mem_nil e)) (by simpa using hm)
  rcases hq : pagesLoop includeFolders (some m) (normalize_prefix_str pfx) pages [] []
    with ⟨objs, folders, reached⟩
  rw [hq] at spec
  obtain ⟨hfiles, htrue, hfalse⟩ := spec
  have hlo : list_objects pages pfx includeFolders (some m) =
      (if includeFolders && !folders.isEmpty then
        objs ++ (sortStrings folders).map folderEntry else objs) := by
    unfold list_objects listObjectsImpl
    simp only [Option.map_some']
    rw [max_eq_right hm, hq]
    dsimp only
    by_cases hcond : (includeFolders && !folders.isEmpty) = true
    · rw [if_pos hcond, if_pos hcond]
    · rw [if_neg hcond, if_neg hcond]
  have hfc : files_count (list_objects pages pfx includeFolders (some m)) =
      objs.length := by
    rw [hlo]
    by_cases hcond : (includeFolders && !folders.isEmpty) = true
    · rw [if_pos hcond, files_count_append, files_count_all objs (fun e he => hfiles e he),
        files_count_map_folder, Nat.add_zero]
    · rw [if_neg hcond]
      exact files_count_all objs (fun e he => hfiles e he)
  have hle : objs.length ≤ m := by
    cases reached
    · exact le_of_lt (hfalse rfl).2
    · exact le_of_eq (htrue rfl)
  refine ⟨?_, ?_, ?_⟩
  · unfold list_files_truncated
    exact decide_eq_true_iff
  · rw [hfc]
    exact hle
  · intro hlt
    rw [hfc] at hlt
    cases reached
    · obtain ⟨h1, -⟩ := hfalse rfl
      simp only [List.length_nil, Nat.zero_add] at h1
      omega
    · have hmeq : objs.length = m := htrue rfl
      unfold list_files_truncated
      rw [hfc, hmeq]
      simp

/-- C10 counterexample: a bucket holding exactly `max_items = 1` file.  The
complete listing is returned (nothing was cut off), yet the internal flag is
set and the route reports `truncated = true`; the adapter result itself is a
bare list carrying no flag at all. -/
theorem C10_counterexample :
    list_files_truncated
      (list_objects [[⟨"a.h5", 10, "t1", "e1"⟩]] "" false (some 1)) 1 = true ∧
    files_count (list_objects [[⟨"a.h5", 10, "t1", "e1"⟩]] "" false (some 1)) =
      totalFileObjs [[⟨"a.h5", 10, "t1", "e1"⟩]] ∧
    listObjectsReachedLimit [[⟨"a.h5", 10, "t1", "e1"⟩]] "" false (some 1) = true := by
  decide

/-- C10 witness: a two-file bucket listed with `max_items = 1` drops the
second file, and `truncated` is reported. -/
theorem C10_truncated_witness :
    (1 : Nat) ≤ 1 ∧
    ((list_files_truncated
        (list_objects [[⟨"a.h5", 10, "t1", "e1"⟩], [⟨"b.h5", 20, "t2", "e2"⟩]]
          "" false (some 1)) 1 = true ↔
      1 ≤ files_count (list_objects [[⟨"a.h5", 10, "t1", "e1"⟩], [⟨"b.h5", 20, "t2", "e2"⟩]]
          "" false (some 1))) ∧
     files_count (list_objects [[⟨"a.h5", 10, "t1", "e1"⟩], [⟨"b.h5", 20, "t2", "e2"⟩]]
        "" false (some 1)) ≤ 1 ∧
     (files_count (list_objects [[⟨"a.h5", 10, "t1", "e1"⟩], [⟨"b.h5", 20, "t2", "e2"⟩]]
        "" false (some 1)) <
        totalFileObjs [[⟨"a.h5", 10, "t1", "e1"⟩], [⟨"b.h5", 20, "t2", "e2"⟩]] →
      list_files_truncated
        (list_objects [[⟨"a.h5", 10, "t1", "e1"⟩], [⟨"b.h5", 20, "t2", "e2"⟩]]
          "" false (some 1)) 1 = true)) :=
  ⟨by decide,
    C10_truncated [[⟨"a.h5", 10, "t1", "e1"⟩], [⟨"b.h5", 20, "t2", "e2"⟩]]
      "" false 1 (by decide)⟩

end HDFViewer
